import Mathlib

/-!
Shallow embedding of the `rtv` HTTP client library (src/client.rs, src/dns.rs,
src/http.rs, src/util.rs) for checking its natural-language specification.

Modelling conventions:
* `Instant` and `Duration` become `Nat` (abstract ticks); `elapsed = now - created`
  with truncated subtraction, matching Rust's monotone `Instant`.
* Byte strings become `List Nat`; text that the source manipulates as `String`
  stays `String` (the request body, which the source holds as `&[u8]`, is kept
  as a `String` since only its length and literal content matter here).
* Fallible operations return `Option`/a `fail?` field; a Rust `panic!`,
  `unwrap`, `expect` or `todo!()` is the `panicked` failure, a propagated
  `io::Error` is the `ioError` failure.
* All socket I/O (mio readiness, TCP reads/writes, UDP datagrams) and the
  external parsers `httparse`, `chunked_transfer` and `dns_parser` are
  environment inputs: each pump step consumes oracle values describing the
  outcome the operating system / external parser produced.  The control flow
  that consumes those outcomes is translated from the source.
-/

namespace Rtv

/-- How a whole `pump`/`send` call can fail hard: a propagated `io::Error`
(`return Err(..)` in the source) or a Rust panic (`expect`/`unwrap`/`todo!()`). -/
inductive PumpFail where
  | ioError
  | panicked
deriving Repr, DecidableEq

/-- A `mio` readiness event: token plus readable/writable flags. -/
structure MioEvent where
  token : Nat
  readable : Bool
  writable : Bool
deriving Repr, DecidableEq

/-! ## src/http.rs : request construction and response types -/

/-- `http.rs` `Method`. -/
inductive Method where
  | get | post | put | delete | patch | head | options | trace
deriving Repr, DecidableEq

/-- `Method` serialisation used by `Request::format`. -/
def Method.toStr : Method → String
  | .get => "GET"
  | .post => "POST"
  | .put => "PUT"
  | .delete => "DELETE"
  | .patch => "PATCH"
  | .head => "HEAD"
  | .options => "OPTIONS"
  | .trace => "TRACE"

/-- `http.rs` `Uri`. -/
structure Uri where
  host : String
  path : String
deriving Repr, DecidableEq

/-- `http.rs` `Request` (the fields `Request::format` reads; `mode` selects the
port/TLS wrapping, which is absorbed into the connection oracles). -/
structure Request where
  method : Method
  uri : Uri
  queries : List (String × String)
  headers : List (String × String)
  timeout : Option Nat
  body : String
deriving Repr, DecidableEq

/-- `str::trim_start_matches("/")`: drop every leading `'/'`. -/
def trimLeadingSlashes (s : List Char) : List Char :=
  s.dropWhile (· = '/')

/-- The header block built by `Request::format`: `Content-Length` and
`Connection` first, then the caller headers (panicking on the managed names),
then `Accept-Encoding: identity` exactly when the source's `overwrite_encoding`
flag is set.  `none` is the source's `panic!` on a managed header name. -/
def formatHeaders (bodyLen : Nat) (hs : List (String × String)) : Option String :=
  if hs.any (fun h => h.1 = "Connection" ∨ h.1 = "Content-Length") then
    none
  else
    let base := "Content-Length: " ++ toString bodyLen ++ "\r\n" ++ "Connection: close" ++ "\r\n"
    let caller := hs.foldl (fun acc h => acc ++ h.1 ++ ": " ++ h.2 ++ "\r\n") ""
    let overwriteEncoding := hs.any (fun h => h.1 = "Accept-Encoding")
    let enc := if overwriteEncoding then "Accept-Encoding: identity" ++ "\r\n" else ""
    some (base ++ caller ++ enc)

/-- `Request::format`.  The source also builds `path_builder` (the trimmed path
with `?k=v&k=v` appended) but the `format!` for the head uses `trimmed_path`,
so `pathBuilder` is bound and never used, exactly as in the source. -/
def Request.format (r : Request) : Option String :=
  let method := r.method.toStr
  let host := r.uri.host
  let trimmedPath := String.mk (trimLeadingSlashes r.uri.path.data)
  let _pathBuilder :=
    (r.queries.enum.foldl
      (fun acc q => acc ++ (if q.1 = 0 then "?" else "&") ++ q.2.1 ++ "=" ++ q.2.2)
      trimmedPath)
  match formatHeaders r.body.length r.headers with
  | none => none
  | some headers =>
    some (method ++ " /" ++ trimmedPath ++ " HTTP/1.1\r\nHost: " ++ host ++ "\r\n"
          ++ headers ++ "\r\n" ++ r.body)

/-- Bytes of `"chunked"`, the `Transfer-Encoding` value tested by the source. -/
def chunkedBytes : List Nat := [99, 104, 117, 110, 107, 101, 100]

/-- `usize::from_str_radix(str::from_utf8(value)?, 10)` on a header value:
an optional leading `'+'` then at least one ASCII digit.  Both source panics
(invalid UTF-8 and non-numeric) collapse to `none`, since bytes that are not
digits are exactly what makes either `expect` fire.  usize overflow is not
modelled (values are `Nat`). -/
def parseUsize (bytes : List Nat) : Option Nat :=
  let digits := match bytes with
    | 43 :: rest => rest
    | other => other
  if digits = [] ∨ digits.any (fun b => b < 48 ∨ 57 < b) then
    none
  else
    some (digits.foldl (fun acc b => acc * 10 + (b - 48)) 0)

/-- The `Content-Length` extraction in `Client::pump` (`RecvHead` arm):
absent header means `0`; a present header is parsed, and `none` models the
`expect` panics on a malformed value. -/
def contentLengthOf (headers : List (String × List Nat)) : Option Nat :=
  match headers.find? (fun h => h.1 = "Content-Length") with
  | none => some 0
  | some h => parseUsize h.2

/-- The `Transfer-Encoding: chunked` test in `Client::pump`. -/
def transferChunkedOf (headers : List (String × List Nat)) : Bool :=
  headers.any (fun h => h.1 = "Transfer-Encoding" ∧ h.2 = chunkedBytes)

/-- `http.rs` `ResponseHead`.  Header values are kept as raw bytes (the source
converts them to `String` lossily for `OwnedHeader`; nothing here depends on
that conversion). -/
structure ResponseHead where
  code : Nat
  reason : String
  headers : List (String × List Nat)
  contentLength : Nat
  transferChunked : Bool
deriving Repr, DecidableEq

/-- `http.rs` `ResponseState`.  `aborted` mirrors the source's `Aborted`
variant. -/
inductive ResponseState where
  | head (h : ResponseHead)
  | data (bytes : List Nat)
  | done
  | timedOut
  | aborted
  | unknownHost
  | error
deriving Repr, DecidableEq

/-- `http.rs` `Response`: a request ticket plus a state. -/
structure Response where
  id : Nat
  state : ResponseState
deriving Repr, DecidableEq

/-! ## Shared helpers (src/util.rs and timing) -/

/-- The deadline test `request.timeout.unwrap_or(Duration::MAX) <= elapsed`
(`Duration::MAX` never being reached by a real clock, `none` is never
elapsed); also `util::is_elapsed` as used by `dns.rs`. -/
def deadlineElapsed (timeout : Option Nat) (created now : Nat) : Bool :=
  match timeout with
  | none => false
  | some t => t ≤ now - created

/-- `Vec::swap_remove(i)`: replace element `i` with the last element and pop. -/
def swapRemove (l : List α) (i : Nat) : List α :=
  match l.getLast? with
  | none => l
  | some last => (l.set i last).dropLast

/-- Does `pat` occur as a contiguous sublist of `s`?  (Used to state facts
about the formatted request bytes.) -/
def startsWithL (pat s : List Char) : Bool :=
  match pat, s with
  | [], _ => true
  | _ :: _, [] => false
  | p :: ps, c :: cs => p = c && startsWithL ps cs

def hasSub (pat : List Char) : List Char → Bool
  | [] => startsWithL pat []
  | c :: cs => startsWithL pat (c :: cs) || hasSub pat cs

/-! ## src/dns.rs : the UDP resolver -/

/-- `dns.rs` `DnsOutcome`.  IPv4 addresses and TTLs are abstract numbers. -/
inductive DnsOutcome where
  | known (addrVal ttl : Nat)
  | unknown
  | error
  | timedOut
deriving Repr, DecidableEq

/-- `dns.rs` `DnsResponse`. -/
structure DnsResponse where
  id : Nat
  outcome : DnsOutcome
deriving Repr, DecidableEq

/-- `dns_parser::ResponseCode` as consumed by `parse_from_packet`. -/
inductive DnsRcode where
  | noError
  | nameError
  | otherCode
deriving Repr, DecidableEq

/-- An answer record as consumed by `parse_answer`: an A record with address
and TTL, or any other record type. -/
inductive DnsRData where
  | a (addrVal ttl : Nat)
  | nonA
deriving Repr, DecidableEq

/-- The fields of a successfully parsed `dns_parser::Packet` that
`parse_from_packet` reads. -/
structure DnsPacket where
  id : Nat
  rcode : DnsRcode
  answers : List DnsRData
deriving Repr, DecidableEq

/-- `dns.rs` `parse_answer`: the first A record wins. -/
def parseAnswer : List DnsRData → Option (Nat × Nat)
  | [] => none
  | .a v t :: _ => some (v, t)
  | .nonA :: rest => parseAnswer rest

/-- `DnsResponse::parse_from_packet`.  Its input here is the outcome of the
external `dns_parser::Packet::parse` on the datagram: `none` when the datagram
is not a well-formed DNS packet.  The source calls `.unwrap()` on that result,
so the `none` case is a panic (`none` result). -/
def DnsResponse.parseFromPacket (parsed : Option DnsPacket) : Option DnsResponse :=
  match parsed with
  | none => none
  | some p =>
    let outcome :=
      match p.rcode with
      | .noError =>
        match parseAnswer p.answers with
        | some (v, t) => DnsOutcome.known v t
        | none => DnsOutcome.error
      | .nameError => DnsOutcome.unknown
      | .otherCode => DnsOutcome.error
    some ⟨p.id, outcome⟩

/-- `dns.rs` `InternalRequest` (`sent = true` is state `Sent`). -/
structure DnsReq where
  id : Nat
  sent : Bool
  host : String
  timeCreated : Nat
  timeout : Option Nat
deriving Repr, DecidableEq

/-- `dns.rs` `DnsClient` (the socket is modelled by its presence). -/
structure DnsClient where
  token : Nat
  hasSocket : Bool
  writeOutdated : Bool
  requests : List DnsReq
  nextId : Nat
deriving Repr, DecidableEq

/-- Outcomes of the fallible socket operations in `DnsClient::resolve`. -/
structure DnsResolveOracle where
  socketSetupOk : Bool
  reregisterOk : Bool
deriving Repr, DecidableEq

/-- Result triple of `DnsClient::resolve`. -/
structure DnsResolveRes where
  fail : Option PumpFail
  dnsId : Option Nat
  st : DnsClient
deriving Repr, DecidableEq

/-- `DnsClient::resolve`: create/register the socket on first use, re-register
when a previous pump cleared write interest, then record the query as pending
under the next wrapping 16-bit ID. -/
def DnsClient.resolve (st : DnsClient) (now : Nat) (host : String)
    (timeout : Option Nat) (o : DnsResolveOracle) : DnsResolveRes :=
  match (if st.hasSocket then some st
         else if o.socketSetupOk then some { st with hasSocket := true }
         else none) with
  | none => ⟨some .ioError, none, st⟩
  | some st1 =>
    if st1.writeOutdated ∧ ¬o.reregisterOk then
      ⟨some .ioError, none, st1⟩
    else
      let st2 := { st1 with writeOutdated := false }
      let id := st2.nextId
      ⟨none, some id,
        { st2 with
          nextId := (st2.nextId + 1) % 65536,
          requests := st2.requests ++ [⟨id, false, host, now, timeout⟩] }⟩

/-- Result of the timeout sweep at the top of `DnsClient::pump`. -/
structure DnsSweepRes where
  reqs : List DnsReq
  resps : List DnsResponse
deriving Repr, DecidableEq

/-- The `while let Some(request) = self.requests.get_mut(index)` sweep: an
elapsed query is `swap_remove`d (the index is re-examined), otherwise the
index advances.  The loop runs at most `2 * length` iterations, so the fuel
makes the recursion structural without changing the result. -/
def sweepGo : Nat → List DnsReq → Nat → Nat → DnsSweepRes
  | 0, reqs, _, _ => ⟨reqs, []⟩
  | fuel + 1, reqs, idx, now =>
    match reqs[idx]? with
    | none => ⟨reqs, []⟩
    | some r =>
      if deadlineElapsed r.timeout r.timeCreated now then
        let rest := sweepGo fuel (swapRemove reqs idx) idx now
        ⟨rest.reqs, ⟨r.id, .timedOut⟩ :: rest.resps⟩
      else
        sweepGo fuel reqs (idx + 1) now

def dnsSweep (reqs : List DnsReq) (now : Nat) : DnsSweepRes :=
  sweepGo (2 * reqs.length + 1) reqs 0 now

/-- One `socket.recv` outcome in the drain loop of `DnsClient::pump`: the OS
reports would-block, a hard error, or a datagram (already run through the
external `dns_parser`, see `DnsResponse.parseFromPacket`). -/
inductive DnsRecvOut where
  | wouldBlock
  | fatal
  | ok (parsed : Option DnsPacket)
deriving Repr, DecidableEq

/-- Per-event oracle for `DnsClient::pump`: one `socket.send` outcome per
pending query, the `socket.recv` drain outcomes, and whether the deregister on
emptying succeeds. -/
structure DnsEvOracle where
  sends : List Bool
  recvs : List DnsRecvOut
  deregisterOk : Bool
deriving Repr, DecidableEq

def DnsEvOracle.benign : DnsEvOracle := ⟨[], [], true⟩

structure DnsSendRes where
  fail : Option PumpFail
  reqs : List DnsReq
  wo : Bool
deriving Repr, DecidableEq

/-- The writable branch: `write_outdated` was just set to `true`; every still
pending query is sent (a send failure propagates, leaving earlier queries
marked sent) and each success clears `write_outdated`. -/
def dnsSendLoop : List DnsReq → List Bool → Bool → DnsSendRes
  | [], _, wo => ⟨none, [], wo⟩
  | r :: rs, sends, wo =>
    if r.sent then
      let rest := dnsSendLoop rs sends wo
      ⟨rest.fail, r :: rest.reqs, rest.wo⟩
    else
      if sends.headD true then
        let rest := dnsSendLoop rs sends.tail false
        ⟨rest.fail, { r with sent := true } :: rest.reqs, rest.wo⟩
      else
        ⟨some .ioError, r :: rs, wo⟩

structure DnsRecvRes where
  fail : Option PumpFail
  reqs : List DnsReq
  sock : Bool
  resps : List DnsResponse
deriving Repr, DecidableEq

/-- The readable drain loop: read datagrams until would-block (an exhausted
oracle list also stands for would-block), parse each (`unwrap` panic on a
malformed one), drop it when no pending query matches the ID, otherwise emit
the response, `swap_remove` the query, and on emptying deregister and drop the
socket and leave the loop. -/
def dnsRecvLoop (deregOk : Bool) :
    List DnsRecvOut → List DnsReq → Bool → DnsRecvRes
  | [], reqs, sock => ⟨none, reqs, sock, []⟩
  | .wouldBlock :: _, reqs, sock => ⟨none, reqs, sock, []⟩
  | .fatal :: _, reqs, sock => ⟨some .ioError, reqs, sock, []⟩
  | .ok parsed :: rest, reqs, sock =>
    match DnsResponse.parseFromPacket parsed with
    | none => ⟨some .panicked, reqs, sock, []⟩
    | some resp =>
      match reqs.findIdx? (fun q => q.id = resp.id) with
      | none => dnsRecvLoop deregOk rest reqs sock
      | some idx =>
        let reqs' := swapRemove reqs idx
        if reqs'.isEmpty then
          if deregOk then ⟨none, reqs', false, [resp]⟩
          else ⟨some .ioError, reqs', sock, [resp]⟩
        else
          let out := dnsRecvLoop deregOk rest reqs' sock
          ⟨out.fail, out.reqs, out.sock, resp :: out.resps⟩

structure DnsEvRes where
  fail : Option PumpFail
  reqs : List DnsReq
  sock : Bool
  wo : Bool
  resps : List DnsResponse
deriving Repr, DecidableEq

/-- After the writable branch produced `sendRes`: propagate a send failure,
otherwise drain the socket on readable events. -/
def dnsEventStepActive (o : DnsEvOracle) (readable : Bool) (sendRes : DnsSendRes)
    (sock : Bool) : DnsEvRes :=
  match sendRes.fail with
  | some f => ⟨some f, sendRes.reqs, sock, sendRes.wo, []⟩
  | none =>
    if readable then
      let r := dnsRecvLoop o.deregisterOk o.recvs sendRes.reqs sock
      ⟨r.fail, r.reqs, r.sock, sendRes.wo, r.resps⟩
    else
      ⟨none, sendRes.reqs, sock, sendRes.wo, []⟩

/-- Processing of one event in `DnsClient::pump`: only events carrying the
resolver token while the socket exists do anything; writable triggers the send
loop (setting `write_outdated` first), readable the drain loop. -/
def dnsEventStep (tokenSelf : Nat) (ev : MioEvent) (o : DnsEvOracle)
    (reqs : List DnsReq) (sock wo : Bool) : DnsEvRes :=
  if ev.token = tokenSelf ∧ sock then
    dnsEventStepActive o ev.readable
      (if ev.writable then dnsSendLoop reqs o.sends true else ⟨none, reqs, wo⟩) sock
  else
    ⟨none, reqs, sock, wo, []⟩

def dnsEventsGo (tokenSelf : Nat) :
    List MioEvent → List DnsEvOracle → List DnsReq → Bool → Bool → DnsEvRes
  | [], _, reqs, sock, wo => ⟨none, reqs, sock, wo, []⟩
  | ev :: evs, os, reqs, sock, wo =>
    let r := dnsEventStep tokenSelf ev (os.headD .benign) reqs sock wo
    match r.fail with
    | some f => ⟨some f, r.reqs, r.sock, r.wo, r.resps⟩
    | none =>
      let r2 := dnsEventsGo tokenSelf evs os.tail r.reqs r.sock r.wo
      ⟨r2.fail, r2.reqs, r2.sock, r2.wo, r.resps ++ r2.resps⟩

/-- Result of `DnsClient::pump`.  On a `fail` the response list holds what had
been pushed before the failure: the caller never sees it (`?` propagation). -/
structure DnsPumpOut where
  fail : Option PumpFail
  resps : List DnsResponse
  st : DnsClient
deriving Repr, DecidableEq

/-- `DnsClient::pump`: first the deadline sweep, then the event loop. -/
def DnsClient.pump (st : DnsClient) (now : Nat) (events : List MioEvent)
    (os : List DnsEvOracle) : DnsPumpOut :=
  let swept := dnsSweep st.requests now
  let r := dnsEventsGo st.token events os swept.reqs st.hasSocket st.writeOutdated
  ⟨r.fail, swept.resps ++ r.resps,
    { st with requests := r.reqs, hasSocket := r.sock, writeOutdated := r.wo }⟩

/-! ## src/client.rs : the request engine -/

/-- `client.rs` `CachedAddr`. -/
structure CachedAddr where
  ipAddr : Nat
  timeCreated : Nat
  ttl : Nat
deriving Repr, DecidableEq

/-- `CachedAddr::is_outdated`: `self.ttl <= self.time_created.elapsed()`. -/
def CachedAddr.isOutdated (c : CachedAddr) (now : Nat) : Bool :=
  c.ttl ≤ now - c.timeCreated

/-- The `dns_cache` is a `HashMap<u64, CachedAddr>` keyed by
`DefaultHasher`-hash of the host; the hash is modelled as an injective
fingerprint, so the map is an association list keyed by the host itself
(spec §4.2 takes collisions to be negligible). -/
def Cache := List (String × CachedAddr)
deriving instance Repr, DecidableEq for Cache

def cacheFind (cache : Cache) (host : String) : Option CachedAddr :=
  (cache.find? (fun e => e.1 = host)).map (·.2)

/-- `HashMap::insert`: overwrite any previous entry for the key. -/
def cacheInsert (host : String) (c : CachedAddr) (cache : Cache) : Cache :=
  (host, c) :: cache.filter (fun e => e.1 ≠ host)

/-- The `Some(cached) if !cached.is_outdated()` guard in `Client::send`. -/
def cacheFresh (cache : Cache) (host : String) (now : Nat) : Bool :=
  match cacheFind cache host with
  | some c => !c.isOutdated now
  | none => false

/-- Whether the body reader is `RecvBody::Chunked` or `RecvBody::Plain`. -/
inductive RecvBodyKind where
  | plain
  | chunked
deriving Repr, DecidableEq

def RecvBodyKind.isChunked : RecvBodyKind → Bool
  | .plain => false
  | .chunked => true

/-- `client.rs` `InternalReqState`.  Dropped payloads relative to the source:
the formatted request bytes (owned by `Resolving`/`Sending`, consumed by the
single `write` whose outcome is an oracle), the TLS `mode` (only selects the
port and the TLS session, both absorbed into connection oracles) and the
`RecvHead` scratch buffer (only ever fed to the external `httparse`, whose
verdict is an oracle). -/
inductive InternalReqState where
  | unspecified
  | error
  | done
  | resolving (dnsId : Nat) (host : String)
  | sending
  | recvHead
  | recvBody (kind : RecvBodyKind) (bytesReadTotal contentLength : Nat)
deriving Repr, DecidableEq

/-- `InternalReqState::connection_mut().is_some()`: the states that own a
connection. -/
def InternalReqState.hasConnection : InternalReqState → Bool
  | .sending | .recvHead | .recvBody .. => true
  | _ => false

/-- `matches!(state, Done | Error)`, as used by `InternalReq::is_finished`. -/
def InternalReqState.isFinished : InternalReqState → Bool
  | .done | .error => true
  | _ => false

/-- `client.rs` `InternalReq`. -/
structure InternalReq where
  id : Nat
  token : Nat
  timeCreated : Nat
  timeout : Option Nat
  state : InternalReqState
deriving Repr, DecidableEq

def InternalReq.isFinished (r : InternalReq) : Bool :=
  r.state.isFinished

/-- Outcome of `connection.peer_addr()`. -/
inductive PeerAddrRes where
  | connected
  | notConnected
  | fatal
deriving Repr, DecidableEq

/-- Outcome of `connection.write(&body)` (a partial write is `Ok` in the
source and treated as fully sent). -/
inductive WriteRes where
  | ok
  | wouldBlock
  | fatal
deriving Repr, DecidableEq

/-- How a read loop (`loop { ... read ... }`) ends: `Ok(0)` (end of stream),
`WouldBlock`, or a hard I/O error. -/
inductive ReadEnd where
  | eof
  | wouldBlock
  | fatal
deriving Repr, DecidableEq

/-- One whole read loop: the bytes obtained over the loop's `Ok(n)` reads and
how the loop ended. -/
structure ReadPass where
  bytes : List Nat
  ending : ReadEnd
deriving Repr, DecidableEq

/-- The verdict of the external `httparse` on the scratch buffer: hard parse
error, incomplete head, or a complete head (whose status code and reason are
always present on success, as `httparse` guarantees for the two `expect`s). -/
inductive ParseRes where
  | parseError
  | incomplete
  | complete (code : Nat) (reason : String) (headers : List (String × List Nat))
deriving Repr, DecidableEq

/-- Per-event environment oracle for one record in `Client::pump`. -/
structure EvOracle where
  connectOk : Bool
  peerAddr : PeerAddrRes
  write : WriteRes
  headRead : ReadPass
  parse : ParseRes
  bodyRead : ReadPass
  deregisterOk : Bool
deriving Repr, DecidableEq

def EvOracle.benign : EvOracle :=
  ⟨true, .connected, .ok, ⟨[], .wouldBlock⟩, .incomplete, ⟨[], .wouldBlock⟩, true⟩

/-- Per-record oracle: the `complete_io` outcome (always `Ok` for a plain
connection; for TLS it may be a hard error), the deregister in the timeout
branch, and the per-event oracles. -/
structure ReqOracle where
  completeIoFatal : Bool
  timeoutDeregisterOk : Bool
  perEvent : List EvOracle
deriving Repr, DecidableEq

def ReqOracle.benign : ReqOracle := ⟨false, true, []⟩

/-- What one event iteration does next: fall through to the next event,
`continue 'rq` (skip the record's remaining events), or abort the whole pump
call. -/
inductive Ctl where
  | next
  | skipRest
  | fatal (f : PumpFail)
deriving Repr, DecidableEq

structure StepRes where
  resps : List Response
  state : InternalReqState
  cache : Cache
  ctl : Ctl
deriving Repr, DecidableEq

/-- The `RecvBody` drain shared by the `RecvHead` fall-through and the
`RecvBody` arm: read until would-block/EOF, emit the bytes as one `Data` event
when any were obtained, then test
`is_chunked && closed || !is_chunked && (bytes_read_total >= content_length)`
for `Done` (deregister may fail hard after `Done` was pushed), else EOF is a
terminal `Error`. -/
def bodyPass (reqId : Nat) (o : EvOracle) (acc : List Response) (cache : Cache)
    (kind : RecvBodyKind) (total cl : Nat) : StepRes :=
  if o.bodyRead.ending = .fatal then
    ⟨acc, .recvBody kind total cl, cache, .fatal .ioError⟩
  else
    let closed := o.bodyRead.ending = ReadEnd.eof
    let bytes := o.bodyRead.bytes
    let dataResps : List Response := if bytes.isEmpty then [] else [⟨reqId, .data bytes⟩]
    let total' := total + bytes.length
    if (kind.isChunked = true ∧ closed) ∨ (kind.isChunked = false ∧ cl ≤ total') then
      if o.deregisterOk then
        ⟨acc ++ dataResps ++ [⟨reqId, .done⟩], .done, cache, .skipRest⟩
      else
        ⟨acc ++ dataResps ++ [⟨reqId, .done⟩], .recvBody kind total' cl, cache, .fatal .ioError⟩
    else if closed then
      ⟨acc ++ dataResps ++ [⟨reqId, .error⟩], .error, cache, .skipRest⟩
    else
      ⟨acc ++ dataResps, .recvBody kind total' cl, cache, .next⟩

/-- One iteration of `for event in events.iter()` for one record, mirroring
the `match &mut request.state` in `Client::pump`.  Notable source behaviour
kept: the `Resolving` arm ignores the event entirely; the head parse runs only
on readable events but the `RecvBody` drain runs for any event with the
record's token; a terminal outcome is always followed by `continue 'rq`; the
`Done`/`Error`/`Unspecified` states hit `todo!()` (a panic). -/
def stepEvent (now : Nat) (dnsResps : List DnsResponse) (reqId reqToken : Nat)
    (ev : MioEvent) (o : EvOracle) (s : InternalReqState) (cache : Cache) : StepRes :=
  match s with
  | .resolving dnsId host =>
    match dnsResps.find? (fun resp => resp.id = dnsId) with
    | none => ⟨[], s, cache, .next⟩
    | some resp =>
      match resp.outcome with
      | .unknown => ⟨[⟨reqId, .unknownHost⟩], .error, cache, .skipRest⟩
      | .error => ⟨[⟨reqId, .error⟩], .error, cache, .skipRest⟩
      | .timedOut => ⟨[⟨reqId, .timedOut⟩], .error, cache, .skipRest⟩
      | .known addrVal ttl =>
        let cache' := cacheInsert host ⟨addrVal, now, ttl⟩ cache
        if o.connectOk then ⟨[], .sending, cache', .skipRest⟩
        else ⟨[], .unspecified, cache', .fatal .ioError⟩
  | .sending =>
    if ev.token = reqToken then
      match o.peerAddr with
      | .fatal => ⟨[], .sending, cache, .fatal .ioError⟩
      | .notConnected => ⟨[], .sending, cache, .skipRest⟩
      | .connected =>
        match o.write with
        | .fatal => ⟨[], .sending, cache, .fatal .ioError⟩
        | .wouldBlock => ⟨[], .sending, cache, .skipRest⟩
        | .ok => ⟨[], .recvHead, cache, .next⟩
    else ⟨[], .sending, cache, .next⟩
  | .recvHead =>
    if ev.token = reqToken then
      if ev.readable then
        if o.headRead.ending = .fatal then
          ⟨[], .recvHead, cache, .fatal .ioError⟩
        else
          let closed := o.headRead.ending = ReadEnd.eof
          match o.parse with
          | .parseError => ⟨[⟨reqId, .error⟩], .error, cache, .skipRest⟩
          | .incomplete =>
            if closed then ⟨[⟨reqId, .error⟩], .error, cache, .skipRest⟩
            else ⟨[], .recvHead, cache, .next⟩
          | .complete code reason headers =>
            match contentLengthOf headers with
            | none => ⟨[], .recvHead, cache, .fatal .panicked⟩
            | some cl =>
              let chunked := transferChunkedOf headers
              let headResp : Response := ⟨reqId, .head ⟨code, reason, headers, cl, chunked⟩⟩
              let kind := if chunked then RecvBodyKind.chunked else RecvBodyKind.plain
              bodyPass reqId o [headResp] cache kind 0 cl
      else ⟨[], .recvHead, cache, .next⟩
    else ⟨[], .recvHead, cache, .next⟩
  | .recvBody kind total cl =>
    if ev.token = reqToken then
      bodyPass reqId o [] cache kind total cl
    else ⟨[], s, cache, .next⟩
  | .unspecified => ⟨[], s, cache, .fatal .panicked⟩
  | .error => ⟨[], s, cache, .fatal .panicked⟩
  | .done => ⟨[], s, cache, .fatal .panicked⟩

structure EvFold where
  resps : List Response
  state : InternalReqState
  cache : Cache
  fail : Option PumpFail
deriving Repr, DecidableEq

/-- Fold of one record over the event list. -/
def goEvents (now : Nat) (dnsResps : List DnsResponse) (reqId reqToken : Nat) :
    List MioEvent → List EvOracle → InternalReqState → Cache → EvFold
  | [], _, s, c => ⟨[], s, c, none⟩
  | ev :: evs, os, s, c =>
    let r := stepEvent now dnsResps reqId reqToken ev (os.headD .benign) s c
    match r.ctl with
    | .skipRest => ⟨r.resps, r.state, r.cache, none⟩
    | .fatal f => ⟨r.resps, r.state, r.cache, some f⟩
    | .next =>
      let r2 := goEvents now dnsResps reqId reqToken evs os.tail r.state r.cache
      ⟨r.resps ++ r2.resps, r2.state, r2.cache, r2.fail⟩

structure RecordRes where
  resps : List Response
  req : InternalReq
  cache : Cache
  fail : Option PumpFail
deriving Repr, DecidableEq

/-- One record's turn in `Client::pump`: the deadline is checked before any
event (yielding exactly one `TimedOut`, with a possible hard deregister
failure after the push), otherwise `complete_io` is pumped, then the events
are iterated. -/
def procRecord (now : Nat) (dnsResps : List DnsResponse) (events : List MioEvent)
    (cache : Cache) (r : InternalReq) (o : ReqOracle) : RecordRes :=
  if deadlineElapsed r.timeout r.timeCreated now then
    if r.state.hasConnection ∧ ¬o.timeoutDeregisterOk then
      ⟨[⟨r.id, .timedOut⟩], r, cache, some .ioError⟩
    else
      ⟨[⟨r.id, .timedOut⟩], { r with state := .error }, cache, none⟩
  else
    if r.state.hasConnection ∧ o.completeIoFatal then
      ⟨[], r, cache, some .ioError⟩
    else
      let f := goEvents now dnsResps r.id r.token events o.perEvent r.state cache
      ⟨f.resps, { r with state := f.state }, f.cache, f.fail⟩

structure ReqsRes where
  pairs : List (InternalReq × List Response)
  cache : Cache
  fail : Option PumpFail
deriving Repr, DecidableEq

/-- The `'rq` loop over all records.  A hard failure aborts the loop: already
processed records keep their updates, the rest stay untouched, and the
`retain` never runs. -/
def goReqs (now : Nat) (dnsResps : List DnsResponse) (events : List MioEvent) :
    List InternalReq → List ReqOracle → Cache → ReqsRes
  | [], _, c => ⟨[], c, none⟩
  | r :: rs, os, c =>
    let pr := procRecord now dnsResps events c r (os.headD .benign)
    match pr.fail with
    | some f => ⟨(pr.req, pr.resps) :: rs.map (fun x => (x, [])), pr.cache, some f⟩
    | none =>
      let rest := goReqs now dnsResps events rs os.tail pr.cache
      ⟨(pr.req, pr.resps) :: rest.pairs, rest.cache, rest.fail⟩

/-- `client.rs` `Client`. -/
structure Client where
  dns : DnsClient
  dnsCache : Cache
  requests : List InternalReq
  nextId : Nat
deriving Repr, DecidableEq

/-- Result of `Client::pump`.  On `fail` the `resps` had been pushed before
the failure and are dropped by `?`/panic propagation: the caller never sees
them, while the state mutations made so far persist. -/
structure PumpOut where
  fail : Option PumpFail
  resps : List Response
  st : Client
deriving Repr, DecidableEq

/-- The body of `Client::pump` after the internal DNS pump: drive every
record, then `retain` the unfinished ones (only when no hard failure
occurred). -/
def clientPumpCore (st : Client) (now : Nat) (events : List MioEvent)
    (dnsResps : List DnsResponse) (os : List ReqOracle) : PumpOut :=
  let rr := goReqs now dnsResps events st.requests os st.dnsCache
  let resps := (rr.pairs.map (·.2)).flatten
  match rr.fail with
  | some f =>
    ⟨some f, resps, { st with requests := rr.pairs.map (·.1), dnsCache := rr.cache }⟩
  | none =>
    ⟨none, resps,
      { st with
        requests := (rr.pairs.map (·.1)).filter (fun r => !r.isFinished),
        dnsCache := rr.cache }⟩

/-- Oracle bundle for one `Client::pump` call. -/
structure PumpOracle where
  dnsEv : List DnsEvOracle
  reqs : List ReqOracle
deriving Repr, DecidableEq

/-- `Client::pump`: `self.dns.pump(..)?` first (a DNS failure aborts the call
before any record is driven), then the record loop on the DNS responses. -/
def Client.pump (st : Client) (now : Nat) (events : List MioEvent)
    (o : PumpOracle) : PumpOut :=
  let d := st.dns.pump now events o.dnsEv
  match d.fail with
  | some f => ⟨some f, [], { st with dns := d.st }⟩
  | none => clientPumpCore { st with dns := d.st } now events d.resps o.reqs

/-- Oracle for the fallible operations in `Client::send`. -/
structure SendOracle where
  connectOk : Bool
  dnsResolve : DnsResolveOracle
deriving Repr, DecidableEq

structure SendRes where
  fail : Option PumpFail
  reqId : Option Nat
  st : Client
deriving Repr, DecidableEq

/-- `Client::send`: format the request (panicking on managed headers), assign
the next wrapping ticket, then either connect straight away on a fresh cache
entry or start DNS resolution.  A connect/registration failure returns the
error with the ticket already consumed and no record stored. -/
def Client.send (st : Client) (now : Nat) (token : Nat) (req : Request)
    (o : SendOracle) : SendRes :=
  match req.format with
  | none => ⟨some .panicked, none, st⟩
  | some _bytes =>
    let id := st.nextId
    let st1 := { st with nextId := (st.nextId + 1) % 18446744073709551616 }
    if cacheFresh st1.dnsCache req.uri.host now then
      if o.connectOk then
        ⟨none, some id,
          { st1 with requests := st1.requests ++ [⟨id, token, now, req.timeout, .sending⟩] }⟩
      else
        ⟨some .ioError, none, st1⟩
    else
      let rr := st1.dns.resolve now req.uri.host req.timeout o.dnsResolve
      match rr.fail with
      | some f => ⟨some f, none, { st1 with dns := rr.st }⟩
      | none =>
        match rr.dnsId with
        | some dnsId =>
          ⟨none, some id,
            { st1 with
              dns := rr.st,
              requests :=
                st1.requests ++ [⟨id, token, now, req.timeout, .resolving dnsId req.uri.host⟩] }⟩
        | none => ⟨some .panicked, none, { st1 with dns := rr.st }⟩

/-! ## Traces of `send` and `pump` calls, and the per-ticket event grammar -/

/-- One engine operation issued by the host application. -/
inductive Op where
  | submit (now token : Nat) (req : Request) (o : SendOracle)
  | pump (now : Nat) (events : List MioEvent) (o : PumpOracle)

structure TraceRes where
  st : Client
  delivered : List Response
  pumpsOk : Bool

/-- `Client::new(token)`. -/
def Client.init (dnsToken : Nat) : Client :=
  ⟨⟨dnsToken, false, false, [], 0⟩, [], [], 0⟩

/-- Run a sequence of operations.  `delivered` collects, in order, the
responses the caller actually receives: a pump that fails hard returns `Err`
and delivers nothing (and clears `pumpsOk`). -/
def runTrace : List Op → Client → TraceRes
  | [], st => ⟨st, [], true⟩
  | .submit now token req o :: ops, st =>
    let s := Client.send st now token req o
    let rest := runTrace ops s.st
    ⟨rest.st, rest.delivered, rest.pumpsOk⟩
  | .pump now events o :: ops, st =>
    let p := Client.pump st now events o
    let rest := runTrace ops p.st
    match p.fail with
    | some _ => ⟨rest.st, rest.delivered, false⟩
    | none => ⟨rest.st, p.resps ++ rest.delivered, rest.pumpsOk⟩

/-- Number of submit operations in a trace. -/
def submitCount : List Op → Nat
  | [] => 0
  | .submit _ _ _ _ :: ops => submitCount ops + 1
  | .pump _ _ _ :: ops => submitCount ops

/-- The events delivered for one ticket, in order. -/
def eventsFor (t : Nat) (resps : List Response) : List ResponseState :=
  (resps.filter (fun r => r.id = t)).map (·.state)

/-- States of the per-ticket grammar automaton: nothing yet / head seen /
terminated. -/
inductive AState where
  | s0
  | s1
  | s2
deriving Repr, DecidableEq

/-- One grammar step: `Head` only first, `Data` only after `Head`, a terminal
event from any non-terminated state, nothing after a terminal. -/
def astep : AState → ResponseState → Option AState
  | .s0, .head _ => some .s1
  | .s0, .data _ => none
  | .s0, _ => some .s2
  | .s1, .head _ => none
  | .s1, .data _ => some .s1
  | .s1, _ => some .s2
  | .s2, _ => none

def arun : AState → List ResponseState → Option AState
  | a, [] => some a
  | a, ev :: evs =>
    match astep a ev with
    | none => none
    | some a' => arun a' evs

/-- The event list for one ticket is a prefix of
`Head · Data* · Terminal` (with the bare-`Terminal` degenerate form for
requests that fail before their head, e.g. a DNS timeout). -/
def gramOk (l : List ResponseState) : Bool :=
  (arun .s0 l).isSome

/-- The phases a retained record can be in while work remains. -/
def InternalReqState.isLive : InternalReqState → Bool
  | .resolving _ _ | .sending | .recvHead | .recvBody _ _ _ => true
  | _ => false

/-- The grammar-automaton state corresponding to a record phase: before the
head was parsed the ticket has emitted nothing (`s0`), in `recvBody` the head
is out (`s1`), `done`/`error` are terminal (`s2`). -/
def InternalReqState.alpha : InternalReqState → AState
  | .recvBody _ _ _ => .s1
  | .done => .s2
  | .error => .s2
  | _ => .s0

def Ctl.isFatal : Ctl → Bool
  | .fatal _ => true
  | _ => false

/-- The record currently holding ticket `t`. -/
def findReq (t : Nat) (reqs : List InternalReq) : Option InternalReq :=
  reqs.find? (fun r => r.id = t)

/-- The usize modulus used by the wrapping ticket counter. -/
def usizeMod : Nat := 18446744073709551616

/-- Engine-state invariant carried through a trace: `k` counts the submits
that consumed a ticket so far. -/
structure Inv (st : Client) (k : Nat) : Prop where
  nid : st.nextId = k % usizeMod
  live : ∀ r ∈ st.requests, r.state.isLive = true
  nodup : (st.requests.map (·.id)).Nodup
  bound : ∀ r ∈ st.requests, r.id < k

/-- Which automaton states are consistent starting points for ticket `t`:
a live record pins the state via `alpha`; with no record the ticket either
was consumed before (`t < k`, it will never receive another event) or is
fresh (`s0`). -/
def startOk (st : Client) (k t : Nat) (a : AState) : Prop :=
  match findReq t st.requests with
  | some r => a = r.state.alpha
  | none => t < k ∨ a = .s0

/-- Every `Data` event in a response batch carries at least one byte. -/
def respsDataOk (l : List Response) : Bool :=
  l.all (fun x =>
    match x.state with
    | .data d => !d.isEmpty
    | _ => true)

/-! ## Concrete fixtures used by counterexamples and witnesses -/

/-- A DNS subsystem with no socket and no pending queries (events never touch
it). -/
def dnsIdle : DnsClient := ⟨0, false, false, [], 0⟩

/-- C3 failing input: one query parameter `k=v`. -/
def reqC3 : Request := ⟨.get, ⟨"h", "p"⟩, [("k", "v")], [], none, ""⟩

/-- C4 failing input: no caller `Accept-Encoding` header. -/
def reqC4a : Request := ⟨.get, ⟨"h", ""⟩, [], [], none, ""⟩

/-- C4 companion input: a caller-supplied `Accept-Encoding`. -/
def reqC4b : Request := ⟨.get, ⟨"h", ""⟩, [], [("Accept-Encoding", "gzip")], none, ""⟩

/-- C5 fixture: one request with ticket 0 and token 10 awaiting its head. -/
def stC5 : Client := ⟨dnsIdle, [], [⟨0, 10, 0, none, .recvHead⟩], 1⟩

/-- C5 fixture: the peer's head parses completely with
`Content-Length: abc` (bytes 97 98 99). -/
def orC5 : PumpOracle :=
  ⟨[], [⟨false, true, [⟨true, .connected, .ok, ⟨[72], .wouldBlock⟩,
    .complete 200 "OK" [("Content-Length", [97, 98, 99])], ⟨[], .wouldBlock⟩, true⟩]⟩]⟩

/-- C1 fixture: ticket 0 in `RecvBody`, identity framing, 0 of 10 body bytes
read. -/
def stC1 : Client := ⟨dnsIdle, [], [⟨0, 10, 0, none, .recvBody .plain 0 10⟩], 1⟩

/-- C1 fixture: the read pass obtains 3 bytes and then end-of-stream. -/
def orC1 : PumpOracle :=
  ⟨[], [⟨false, true, [⟨true, .connected, .ok, ⟨[], .wouldBlock⟩, .incomplete,
    ⟨[9, 9, 9], .eof⟩, true⟩]⟩]⟩

/-- C6 fixture: one sent query with ID 5. -/
def dnsC6 : DnsClient := ⟨0, true, false, [⟨5, true, "h", 0, none⟩], 6⟩

/-- C6 fixture: the socket delivers one datagram that `dns_parser` rejects. -/
def orC6 : List DnsEvOracle := [⟨[], [.ok none], true⟩]

/-- C9 counterexample fixture: one sent query with deadline 5, created at 0. -/
def dnsC9 : DnsClient := ⟨0, true, false, [⟨3, true, "h", 0, some 5⟩], 4⟩

/-- C9 witness fixture: one pending query, no deadline. -/
def dnsC9b : DnsClient := ⟨0, true, false, [⟨3, false, "h", 0, none⟩], 4⟩

/-- C9 witness fixture: the pending query is sent and a matching `NOERROR`
A-answer arrives. -/
def orC9b : List DnsEvOracle := [⟨[true], [.ok (some ⟨3, .noError, [.a 7 99]⟩)], true⟩]

/-- C7 fixture: a cache entry for `h` inserted at time 0 with TTL 5. -/
def stC7 : Client := ⟨dnsIdle, [("h", ⟨7, 0, 5⟩)], [], 0⟩

def reqC7 : Request := ⟨.get, ⟨"h", ""⟩, [], [], none, ""⟩

def sendOracleOk : SendOracle := ⟨true, ⟨true, true⟩⟩

/-- Build a per-event oracle for a readable head/body pass. -/
def evO (hr : ReadPass) (p : ParseRes) (br : ReadPass) : EvOracle :=
  ⟨true, .connected, .ok, hr, p, br, true⟩

/-- C2 counterexample trace: request A (ticket 0, token 10) resolves and gets
its head parsed in a pump that then fails hard on request B (ticket 1, token
20), so A's `Head` is produced but never delivered; the next pump delivers
A's `Data` and `Done` with no preceding `Head`. -/
def opsC2 : List Op :=
  [ .submit 0 10 reqC7 sendOracleOk,
    .pump 1 [⟨0, true, true⟩]
      ⟨[⟨[true], [.ok (some ⟨0, .noError, [.a 7 99]⟩)], true⟩],
       [⟨false, true, [.benign]⟩]⟩,
    .submit 2 20 reqC7 sendOracleOk,
    .pump 3 [⟨10, true, true⟩, ⟨20, true, true⟩]
      ⟨[], [⟨false, true, [.benign, .benign]⟩, ⟨false, true, [.benign, .benign]⟩]⟩,
    .pump 4 [⟨10, true, false⟩, ⟨20, true, false⟩]
      ⟨[], [⟨false, true,
              [evO ⟨[72], .wouldBlock⟩ (.complete 200 "OK" [("Content-Length", [51])]) ⟨[], .wouldBlock⟩,
               .benign]⟩,
            ⟨false, true,
              [.benign,
               evO ⟨[], .fatal⟩ .incomplete ⟨[], .wouldBlock⟩]⟩]⟩,
    .pump 5 [⟨10, true, false⟩]
      ⟨[], [⟨false, true, [evO ⟨[], .wouldBlock⟩ .incomplete ⟨[1, 2, 3], .wouldBlock⟩]⟩,
            ⟨false, true, [.benign]⟩]⟩ ]

/-- An entirely successful single-request trace (used as a witness input):
resolve, connect, send, parse the head with `Content-Length: 3`, read the
3-byte body, finish. -/
def opsC2ok : List Op :=
  [ .submit 0 10 reqC7 sendOracleOk,
    .pump 1 [⟨0, true, true⟩]
      ⟨[⟨[true], [.ok (some ⟨0, .noError, [.a 7 99]⟩)], true⟩],
       [⟨false, true, [.benign]⟩]⟩,
    .pump 2 [⟨10, true, true⟩]
      ⟨[], [⟨false, true, [.benign]⟩]⟩,
    .pump 3 [⟨10, true, false⟩]
      ⟨[], [⟨false, true,
        [evO ⟨[72], .wouldBlock⟩ (.complete 200 "OK" [("Content-Length", [51])]) ⟨[1, 2, 3], .wouldBlock⟩]⟩]⟩ ]

/-- C8 witness fixture: ticket 0 submitted at time 0 with timeout 5, pumped
at time 9. -/
def stC8 : Client := ⟨dnsIdle, [], [⟨0, 10, 0, some 5, .recvHead⟩], 1⟩

/-! # Helper lemmas -/

theorem eventsFor_nil (t : Nat) : eventsFor t [] = [] := rfl

theorem eventsFor_append (t : Nat) (a b : List Response) :
    eventsFor t (a ++ b) = eventsFor t a ++ eventsFor t b := by
  simp [eventsFor]

theorem eventsFor_cons (t : Nat) (x : Response) (xs : List Response) :
    eventsFor t (x :: xs) =
      if x.id = t then x.state :: eventsFor t xs else eventsFor t xs := by
  by_cases h : x.id = t <;> simp [eventsFor, List.filter_cons, h]

theorem eventsFor_all_eq {l : List Response} {i : Nat}
    (h : ∀ x ∈ l, x.id = i) : eventsFor i l = l.map (·.state) := by
  induction l with
  | nil => rfl
  | cons x xs ih =>
    rw [eventsFor_cons, if_pos (h x (List.mem_cons_self x xs))]
    simp [ih fun y hy => h y (List.mem_cons_of_mem _ hy)]

theorem eventsFor_all_ne {l : List Response} {t : Nat}
    (h : ∀ x ∈ l, x.id ≠ t) : eventsFor t l = [] := by
  induction l with
  | nil => rfl
  | cons x xs ih =>
    rw [eventsFor_cons, if_neg (h x (List.mem_cons_self x xs))]
    exact ih fun y hy => h y (List.mem_cons_of_mem _ hy)

theorem arun_append (a : AState) (l1 l2 : List ResponseState) :
    arun a (l1 ++ l2) = (arun a l1).bind (fun a' => arun a' l2) := by
  induction l1 generalizing a with
  | nil => simp [arun]
  | cons x xs ih =>
    simp only [List.cons_append, arun]
    cases astep a x <;> simp [ih]

theorem alpha_of_live {s : InternalReqState} (h : s.isLive = true) :
    s.alpha = .s0 ∨ s.alpha = .s1 := by
  cases s <;> simp_all [InternalReqState.alpha, InternalReqState.isLive]

theorem astep_terminal {a : AState} (h : a = .s0 ∨ a = .s1) (ev : ResponseState)
    (hev : ev = .done ∨ ev = .timedOut ∨ ev = .aborted ∨ ev = .unknownHost ∨ ev = .error) :
    astep a ev = some .s2 := by
  rcases h with rfl | rfl <;> rcases hev with rfl | rfl | rfl | rfl | rfl <;> rfl

theorem isLive_of_not_finished {s : InternalReqState}
    (h1 : s ≠ .unspecified) (h2 : s.isFinished = false) : s.isLive = true := by
  cases s <;> simp_all [InternalReqState.isFinished, InternalReqState.isLive]

/-! # Claim theorems: concrete counterexamples and code-bug evidence -/

/-- C3: code-bug evidence.  The source computes `path_builder` (path plus
`?k1=v1&...`) but formats the request line with the bare `trimmed_path`, so
the formatted bytes of a request carrying the query `k=v` contain no query
at all: the full output is shown, and it has no `'?'` and no `k=v`. -/
theorem c3_queries_missing_from_format :
    Request.format reqC3 =
      some "GET /p HTTP/1.1\r\nHost: h\r\nContent-Length: 0\r\nConnection: close\r\n\r\n"
    ∧ hasSub "?".data (((Request.format reqC3).getD "").data) = false
    ∧ hasSub "k=v".data (((Request.format reqC3).getD "").data) = false := by
  refine ⟨by decide, by decide, by decide⟩

/-- C4: code-bug evidence.  The `overwrite_encoding` flag is used inverted:
a request without a caller `Accept-Encoding` gets no `Accept-Encoding:
identity` line, while a request whose caller set `Accept-Encoding: gzip`
gets the identity line appended after it. -/
theorem c4_accept_encoding_inverted :
    Request.format reqC4a =
      some "GET / HTTP/1.1\r\nHost: h\r\nContent-Length: 0\r\nConnection: close\r\n\r\n"
    ∧ hasSub "Accept-Encoding".data (((Request.format reqC4a).getD "").data) = false
    ∧ hasSub "Accept-Encoding: identity\r\n".data (((Request.format reqC4b).getD "").data) = true
    ∧ hasSub "Accept-Encoding: gzip\r\n".data (((Request.format reqC4b).getD "").data) = true := by
  refine ⟨by decide, by decide, by decide, by decide⟩

/-- C5: code-bug evidence.  A complete head whose `Content-Length` is `abc`
makes `pump` panic (the two `expect`s), aborting the whole call with no
`Error` event for the ticket. -/
theorem c5_malformed_content_length_panics :
    (Client.pump stC5 1 [⟨10, true, false⟩] orC5).fail = some .panicked
    ∧ (Client.pump stC5 1 [⟨10, true, false⟩] orC5).resps = []
    ∧ contentLengthOf [("Content-Length", [97, 98, 99])] = none := by
  refine ⟨by decide, by decide, by decide⟩

/-- C6: code-bug evidence.  A datagram rejected by `dns_parser` hits the
`.unwrap()` and panics the whole resolver pump; no `Error` is surfaced and
the datagram is not merely dropped. -/
theorem c6_malformed_datagram_panics :
    (DnsClient.pump dnsC6 1 [⟨0, true, false⟩] orC6).fail = some .panicked
    ∧ (DnsClient.pump dnsC6 1 [⟨0, true, false⟩] orC6).resps = []
    ∧ DnsResponse.parseFromPacket none = none := by
  refine ⟨by decide, by decide, by decide⟩

/-- C9: counterexample to the claim as stated.  The pending set empties
because the only query's deadline passed, yet the socket survives the pump:
teardown only happens in the read-drain match branch. -/
theorem c9_counterexample :
    dnsC9.requests ≠ []
    ∧ (DnsClient.pump dnsC9 10 [] []).fail = none
    ∧ (DnsClient.pump dnsC9 10 [] []).st.requests = []
    ∧ (DnsClient.pump dnsC9 10 [] []).st.hasSocket = true := by
  refine ⟨by decide, by decide, by decide, by decide⟩

/-- C7: counterexample to the claim as stated.  With a cache entry inserted
at time 0 with TTL 5, a submit at time 5 satisfies the claim's freshness
condition `now - insertion ≤ TTL`, yet `is_outdated` (`ttl <= elapsed`)
reports stale: the record starts in `Resolving` and a DNS query is issued. -/
theorem c7_counterexample :
    cacheFind stC7.dnsCache "h" = some ⟨7, 0, 5⟩
    ∧ 5 - (0 : Nat) ≤ 5
    ∧ (Client.send stC7 5 1 reqC7 sendOracleOk).st.requests.map (·.state) =
        [.resolving 0 "h"]
    ∧ (Client.send stC7 5 1 reqC7 sendOracleOk).st.dns.requests.length = 1 := by
  refine ⟨by decide, by decide, by decide, by decide⟩

/-- C1: counterexample to the claim as stated.  A request under
`Content-Length` framing (3 of 10 bytes read when the peer closes) ends with
terminal `Error`, not `Aborted`; the record is removed. -/
theorem c1_counterexample :
    (Client.pump stC1 1 [⟨10, true, false⟩] orC1).fail = none
    ∧ (Client.pump stC1 1 [⟨10, true, false⟩] orC1).resps =
        [⟨0, .data [9, 9, 9]⟩, ⟨0, .error⟩]
    ∧ (Client.pump stC1 1 [⟨10, true, false⟩] orC1).st.requests = [] := by
  refine ⟨by decide, by decide, by decide⟩

/-- C2: counterexample to the claim as stated.  In `opsC2` the pump that
produced `Head` for ticket 0 fails hard on the next record, dropping the
batch; the subsequent successful pump delivers `Data` then `Done` for ticket
0, so the delivered events for ticket 0 start with `Data` and violate the
grammar. -/
theorem c2_counterexample :
    eventsFor 0 (runTrace opsC2 (Client.init 0)).delivered =
      [.data [1, 2, 3], .done]
    ∧ gramOk (eventsFor 0 (runTrace opsC2 (Client.init 0)).delivered) = false := by
  refine ⟨by decide, by decide⟩

/-! ## C9 machinery: when the resolver socket is torn down -/

theorem sweepGo_timedOut :
    ∀ (fuel : Nat) (reqs : List DnsReq) (idx now : Nat),
      ∀ r ∈ (sweepGo fuel reqs idx now).resps, r.outcome = .timedOut := by
  intro fuel
  induction fuel with
  | zero => intro reqs idx now r hr; simp [sweepGo] at hr
  | succ n ih =>
    intro reqs idx now r hr
    simp only [sweepGo] at hr
    split at hr
    · simp at hr
    · split at hr
      · simp only [] at hr
        rcases List.mem_cons.mp hr with rfl | hr'
        · rfl
        · exact ih _ _ _ r hr'
      · exact ih _ _ _ r hr

theorem dnsSendLoop_length (reqs : List DnsReq) :
    ∀ (sends : List Bool) (wo : Bool),
      (dnsSendLoop reqs sends wo).reqs.length = reqs.length := by
  induction reqs with
  | nil => intro sends wo; rfl
  | cons r rs ih =>
    intro sends wo
    simp only [dnsSendLoop]
    split
    · simp [ih]
    · split
      · simp [ih]
      · simp

theorem dnsRecvLoop_nil_reqs (deregOk : Bool) (recvs : List DnsRecvOut) (sock : Bool) :
    (dnsRecvLoop deregOk recvs [] sock).reqs = []
    ∧ (dnsRecvLoop deregOk recvs [] sock).sock = sock
    ∧ (dnsRecvLoop deregOk recvs [] sock).resps = [] := by
  induction recvs with
  | nil => exact ⟨rfl, rfl, rfl⟩
  | cons c cs ih =>
    cases c with
    | wouldBlock => exact ⟨rfl, rfl, rfl⟩
    | fatal => exact ⟨rfl, rfl, rfl⟩
    | ok parsed =>
      simp only [dnsRecvLoop]
      cases hp : DnsResponse.parseFromPacket parsed with
      | none => exact ⟨rfl, rfl, rfl⟩
      | some resp => simpa using ih

theorem dnsRecvLoop_to_sock (deregOk : Bool) :
    ∀ (recvs : List DnsRecvOut) (reqs : List DnsReq) (sock : Bool),
      (dnsRecvLoop deregOk recvs reqs sock).fail = none →
      reqs ≠ [] →
      (dnsRecvLoop deregOk recvs reqs sock).reqs = [] →
      (dnsRecvLoop deregOk recvs reqs sock).sock = false := by
  intro recvs
  induction recvs with
  | nil => intro reqs sock _ hne he; exact absurd he hne
  | cons c cs ih =>
    intro reqs sock hf hne he
    cases c with
    | wouldBlock => exact absurd he hne
    | fatal => simp [dnsRecvLoop] at hf
    | ok parsed =>
      cases hp : DnsResponse.parseFromPacket parsed with
      | none =>
        simp only [dnsRecvLoop, hp] at hf
        simp at hf
      | some resp =>
        simp only [dnsRecvLoop, hp] at hf he ⊢
        cases hidx : reqs.findIdx? (fun q => q.id = resp.id) with
        | none =>
          simp only [hidx] at hf he ⊢
          exact ih reqs sock hf hne he
        | some idx =>
          simp only [hidx] at hf he ⊢
          by_cases hemp : (swapRemove reqs idx).isEmpty
          · simp only [if_pos hemp] at hf ⊢
            cases hd : deregOk with
            | true => simp [hd]
            | false => simp [hd] at hf
          · simp only [if_neg hemp] at hf he ⊢
            refine ih (swapRemove reqs idx) sock hf ?_ he
            intro hx
            exact hemp (by simp [hx])

theorem dnsEventStepActive_empty (o : DnsEvOracle) (readable : Bool)
    (f : Option PumpFail) (w sock : Bool) :
    (dnsEventStepActive o readable ⟨f, [], w⟩ sock).reqs = []
    ∧ (dnsEventStepActive o readable ⟨f, [], w⟩ sock).sock = sock
    ∧ (dnsEventStepActive o readable ⟨f, [], w⟩ sock).resps = [] := by
  cases f with
  | some f => exact ⟨rfl, rfl, rfl⟩
  | none =>
    unfold dnsEventStepActive
    cases readable with
    | true => exact dnsRecvLoop_nil_reqs o.deregisterOk o.recvs sock
    | false => exact ⟨rfl, rfl, rfl⟩

theorem dnsEventStepActive_to_sock (o : DnsEvOracle) (readable : Bool)
    (s : DnsSendRes) (sock : Bool)
    (hf : (dnsEventStepActive o readable s sock).fail = none)
    (hne : s.reqs ≠ [])
    (he : (dnsEventStepActive o readable s sock).reqs = []) :
    (dnsEventStepActive o readable s sock).sock = false := by
  obtain ⟨f, rq, w⟩ := s
  cases f with
  | some f => exact absurd hf (by simp [dnsEventStepActive])
  | none =>
    unfold dnsEventStepActive at hf he ⊢
    cases readable with
    | true => exact dnsRecvLoop_to_sock o.deregisterOk o.recvs rq sock hf hne he
    | false => exact absurd he hne

theorem dnsEventStep_empty (tokenSelf : Nat) (ev : MioEvent) (o : DnsEvOracle)
    (sock wo : Bool) :
    (dnsEventStep tokenSelf ev o [] sock wo).reqs = []
    ∧ (dnsEventStep tokenSelf ev o [] sock wo).sock = sock
    ∧ (dnsEventStep tokenSelf ev o [] sock wo).resps = [] := by
  unfold dnsEventStep
  split
  · have hsend : (if ev.writable = true then dnsSendLoop [] o.sends true
        else (⟨none, [], wo⟩ : DnsSendRes)) =
        ⟨none, [], if ev.writable = true then true else wo⟩ := by
      split <;> rfl
    rw [hsend]
    exact dnsEventStepActive_empty o ev.readable none _ sock
  · exact ⟨rfl, rfl, rfl⟩

theorem dnsEventStep_to_sock (tokenSelf : Nat) (ev : MioEvent) (o : DnsEvOracle)
    (reqs : List DnsReq) (sock wo : Bool)
    (hf : (dnsEventStep tokenSelf ev o reqs sock wo).fail = none)
    (hne : reqs ≠ [])
    (he : (dnsEventStep tokenSelf ev o reqs sock wo).reqs = []) :
    (dnsEventStep tokenSelf ev o reqs sock wo).sock = false := by
  unfold dnsEventStep at hf he ⊢
  by_cases hcond : ev.token = tokenSelf ∧ sock = true
  · rw [if_pos hcond] at hf he ⊢
    refine dnsEventStepActive_to_sock o ev.readable _ sock hf ?_ he
    intro hx
    apply hne
    have hlen : (if ev.writable = true then dnsSendLoop reqs o.sends true
        else (⟨none, reqs, wo⟩ : DnsSendRes)).reqs.length = reqs.length := by
      split
      · exact dnsSendLoop_length reqs o.sends true
      · rfl
    rw [hx] at hlen
    exact List.length_eq_zero.mp hlen.symm
  · rw [if_neg hcond] at he
    exact absurd he hne

theorem dnsEventsGo_empty (tokenSelf : Nat) :
    ∀ (events : List MioEvent) (os : List DnsEvOracle) (sock wo : Bool),
      (dnsEventsGo tokenSelf events os [] sock wo).reqs = []
      ∧ (dnsEventsGo tokenSelf events os [] sock wo).sock = sock
      ∧ (dnsEventsGo tokenSelf events os [] sock wo).resps = [] := by
  intro events
  induction events with
  | nil => intro os sock wo; exact ⟨rfl, rfl, rfl⟩
  | cons ev evs ih =>
    intro os sock wo
    obtain ⟨h1, h2, h3⟩ := dnsEventStep_empty tokenSelf ev (os.headD .benign) sock wo
    cases heq : (dnsEventStep tokenSelf ev (os.headD .benign) [] sock wo).fail with
    | some f =>
      simp only [dnsEventsGo, heq]
      exact ⟨h1, h2, h3⟩
    | none =>
      simp only [dnsEventsGo, heq]
      rw [h1, h2]
      obtain ⟨g1, g2, g3⟩ := ih os.tail sock
        (dnsEventStep tokenSelf ev (os.headD .benign) [] sock wo).wo
      exact ⟨g1, g2, by simp only [h3, g3, List.append_nil]⟩

theorem dnsEventsGo_to_sock (tokenSelf : Nat) :
    ∀ (events : List MioEvent) (os : List DnsEvOracle) (reqs : List DnsReq)
      (sock wo : Bool),
      (dnsEventsGo tokenSelf events os reqs sock wo).fail = none →
      reqs ≠ [] →
      (dnsEventsGo tokenSelf events os reqs sock wo).reqs = [] →
      (dnsEventsGo tokenSelf events os reqs sock wo).sock = false := by
  intro events
  induction events with
  | nil => intro os reqs sock wo _ hne he; exact absurd he hne
  | cons ev evs ih =>
    intro os reqs sock wo hf hne he
    cases heq : (dnsEventStep tokenSelf ev (os.headD .benign) reqs sock wo).fail with
    | some f =>
      simp only [dnsEventsGo, heq] at hf
      simp at hf
    | none =>
      simp only [dnsEventsGo, heq] at hf he ⊢
      by_cases hr : (dnsEventStep tokenSelf ev (os.headD .benign) reqs sock wo).reqs = []
      · have hsock := dnsEventStep_to_sock tokenSelf ev (os.headD .benign) reqs sock wo
          heq hne hr
        obtain ⟨g1, g2, g3⟩ := dnsEventsGo_empty tokenSelf evs os.tail
          (dnsEventStep tokenSelf ev (os.headD .benign) reqs sock wo).sock
          (dnsEventStep tokenSelf ev (os.headD .benign) reqs sock wo).wo
        rw [hr] at he ⊢
        rw [g2, hsock]
      · exact ih os.tail _ _ _ hf hr he

/-- C9 (amended): the resolver socket is deregistered and dropped exactly
when the pending set empties because a matching response arrived in the read
drain; when the set empties only through the deadline sweep (no events), the
socket is retained. -/
theorem c9_amended :
    (∀ (st : DnsClient) (now : Nat) (events : List MioEvent) (os : List DnsEvOracle),
      (DnsClient.pump st now events os).fail = none →
      (DnsClient.pump st now events os).st.requests = [] →
      (∃ r ∈ (DnsClient.pump st now events os).resps, r.outcome ≠ .timedOut) →
      (DnsClient.pump st now events os).st.hasSocket = false)
    ∧ (∀ (st : DnsClient) (now : Nat) (os : List DnsEvOracle),
      (DnsClient.pump st now [] os).st.hasSocket = st.hasSocket) := by
  constructor
  · intro st now events os hf he hex
    simp only [DnsClient.pump] at hf he hex ⊢
    rcases hex with ⟨r, hr, hout⟩
    rcases List.mem_append.mp hr with hsw | hev
    · exact absurd (sweepGo_timedOut _ _ _ _ r hsw) hout
    · by_cases hq : (dnsSweep st.requests now).reqs = []
      · obtain ⟨g1, g2, g3⟩ := dnsEventsGo_empty st.token events os st.hasSocket
          st.writeOutdated
        rw [hq] at hev
        rw [g3] at hev
        simp at hev
      · exact dnsEventsGo_to_sock st.token events os _ _ _ hf hq he
  · intro st now os
    rfl

/-- C9 amended witness: a pump where the pending set empties via a matching
response drops the socket, and the deadline-sweep pump keeps it. -/
theorem c9_amended_witness :
    ((DnsClient.pump dnsC9b 1 [⟨0, true, true⟩] orC9b).fail = none
     ∧ (DnsClient.pump dnsC9b 1 [⟨0, true, true⟩] orC9b).st.requests = []
     ∧ (DnsClient.pump dnsC9b 1 [⟨0, true, true⟩] orC9b).st.hasSocket = false)
    ∧ (DnsClient.pump dnsC9 10 [] []).st.hasSocket = dnsC9.hasSocket := by
  refine ⟨⟨by decide, by decide, ?_⟩, ?_⟩
  · exact c9_amended.1 dnsC9b 1 [⟨0, true, true⟩] orC9b (by decide) (by decide)
      ⟨⟨3, .known 7 99⟩, by decide, by decide⟩
  · exact c9_amended.2 dnsC9 10 []

/-! ## C7: cache freshness is strict -/

/-- C7 (amended): a cached address is considered fresh exactly while
`now - insertion < TTL` (strict, the boundary `now - insertion = TTL` counts
as stale): a submit finding a fresh entry goes straight to `Sending` and
issues no DNS query, a submit finding a stale entry starts resolution. -/
theorem c7_amended (st : Client) (now token : Nat) (req : Request) (c : CachedAddr)
    (o : SendOracle)
    (hfmt : (Request.format req).isSome = true)
    (hconn : o.connectOk = true)
    (hsetup : o.dnsResolve.socketSetupOk = true)
    (hrereg : o.dnsResolve.reregisterOk = true)
    (hc : cacheFind st.dnsCache req.uri.host = some c) :
    (c.isOutdated now = false ↔ now - c.timeCreated < c.ttl)
    ∧ (now - c.timeCreated < c.ttl →
        (Client.send st now token req o).st.requests =
          st.requests ++ [⟨st.nextId, token, now, req.timeout, .sending⟩]
        ∧ (Client.send st now token req o).st.dns = st.dns)
    ∧ (c.ttl ≤ now - c.timeCreated →
        (Client.send st now token req o).st.requests =
          st.requests ++ [⟨st.nextId, token, now, req.timeout,
            .resolving st.dns.nextId req.uri.host⟩]
        ∧ (Client.send st now token req o).st.dns.requests =
            st.dns.requests ++ [⟨st.dns.nextId, false, req.uri.host, now, req.timeout⟩]) := by
  obtain ⟨bytes, hb⟩ := Option.isSome_iff_exists.mp hfmt
  refine ⟨?_, ?_, ?_⟩
  · simp [CachedAddr.isOutdated]
  · intro hlt
    have hfresh : cacheFresh st.dnsCache req.uri.host now = true := by
      simp [cacheFresh, hc, CachedAddr.isOutdated]
      omega
    simp [Client.send, hb, hfresh, hconn]
  · intro hge
    have hfresh : cacheFresh st.dnsCache req.uri.host now = false := by
      simp [cacheFresh, hc, CachedAddr.isOutdated]
      omega
    have hwo : ∀ b : Bool, (b = true ∧ ¬o.dnsResolve.reregisterOk = true) = False := by
      intro b
      simp [hrereg]
    cases hsock : st.dns.hasSocket with
    | true =>
      simp [Client.send, hb, hfresh, DnsClient.resolve, hsock, hrereg]
    | false =>
      simp [Client.send, hb, hfresh, DnsClient.resolve, hsock, hsetup, hrereg]

/-- C7 amended witness: at `now = 4` (strictly inside the TTL) the cached
address is used and the DNS subsystem is untouched. -/
theorem c7_amended_witness :
    (Client.send stC7 4 1 reqC7 sendOracleOk).st.requests =
      stC7.requests ++ [⟨0, 1, 4, none, .sending⟩]
    ∧ (Client.send stC7 4 1 reqC7 sendOracleOk).st.dns = stC7.dns := by
  have h := c7_amended stC7 4 1 reqC7 ⟨7, 0, 5⟩ sendOracleOk (by decide) rfl rfl rfl
    (by decide)
  exact h.2.1 (by decide)

/-! ## C1: end-of-stream before the body is complete -/

/-- C1 (amended): when the connection reaches end-of-stream before the body
is complete, the record is removed, but the terminal event is `Error` (never
`Aborted`) under `Content-Length` framing, and under chunked framing a read
pass that observes end-of-stream is treated as completion and emits `Done`. -/
theorem c1_amended (idn tok tc now cl total dt dn : Nat) (cache : Cache)
    (bytes : List Nat) (kind : RecvBodyKind)
    (hplain : kind = .plain → total + bytes.length < cl) :
    Client.pump
        ⟨⟨dt, false, false, [], dn⟩, cache,
          [⟨idn, tok, tc, none, .recvBody kind total cl⟩], idn + 1⟩
        now [⟨tok, true, false⟩]
        ⟨[], [⟨false, true, [⟨true, .connected, .ok, ⟨[], .wouldBlock⟩, .incomplete,
          ⟨bytes, .eof⟩, true⟩]⟩]⟩ =
      ⟨none,
       (if bytes.isEmpty then [] else [⟨idn, .data bytes⟩]) ++
         [⟨idn, if kind = .chunked then .done else .error⟩],
       ⟨⟨dt, false, false, [], dn⟩, cache, [], idn + 1⟩⟩ := by
  cases kind with
  | chunked =>
    simp [Client.pump, DnsClient.pump, dnsSweep, sweepGo, dnsEventsGo, dnsEventStep,
      clientPumpCore, goReqs, procRecord, goEvents, stepEvent, bodyPass,
      deadlineElapsed, InternalReqState.hasConnection, RecvBodyKind.isChunked,
      InternalReq.isFinished, InternalReqState.isFinished]
  | plain =>
    have hcl : ¬ cl ≤ total + bytes.length := by
      have := hplain rfl
      omega
    simp [Client.pump, DnsClient.pump, dnsSweep, sweepGo, dnsEventsGo, dnsEventStep,
      clientPumpCore, goReqs, procRecord, goEvents, stepEvent, bodyPass,
      deadlineElapsed, InternalReqState.hasConnection, RecvBodyKind.isChunked,
      InternalReq.isFinished, InternalReqState.isFinished, hcl]

/-- C1 amended witness: concrete instance (identity framing, 3 of 10 bytes,
then EOF). -/
theorem c1_amended_witness :
    (0 + [9, 9, 9].length < 10)
    ∧ Client.pump
        ⟨⟨0, false, false, [], 0⟩, [], [⟨0, 10, 0, none, .recvBody .plain 0 10⟩], 1⟩
        1 [⟨10, true, false⟩]
        ⟨[], [⟨false, true, [⟨true, .connected, .ok, ⟨[], .wouldBlock⟩, .incomplete,
          ⟨[9, 9, 9], .eof⟩, true⟩]⟩]⟩ =
      ⟨none,
       (if ([9, 9, 9] : List Nat).isEmpty then [] else [⟨0, .data [9, 9, 9]⟩]) ++
         [⟨0, if RecvBodyKind.plain = .chunked then .done else .error⟩],
       ⟨⟨0, false, false, [], 0⟩, [], [], 1⟩⟩ :=
  ⟨by decide, c1_amended 0 10 0 1 10 0 0 0 [] [9, 9, 9] .plain (fun _ => by decide)⟩

/-! ## C10: every Data event is non-empty -/

theorem dataOk_dataResps (reqId : Nat) (bytes : List Nat) :
    respsDataOk (if bytes.isEmpty then []
      else [⟨reqId, .data bytes⟩]) = true := by
  by_cases h : bytes.isEmpty <;> simp [respsDataOk, h]

theorem respsDataOk_append (a b : List Response) :
    respsDataOk (a ++ b) = (respsDataOk a && respsDataOk b) := by
  simp [respsDataOk]

theorem bodyPass_dataOk (reqId : Nat) (o : EvOracle) (acc : List Response)
    (cache : Cache) (kind : RecvBodyKind) (total cl : Nat)
    (hacc : respsDataOk acc = true) :
    respsDataOk (bodyPass reqId o acc cache kind total cl).resps = true := by
  simp only [bodyPass]
  split
  · exact hacc
  · split
    · split
      all_goals
        rw [respsDataOk_append, respsDataOk_append, hacc, dataOk_dataResps]
        rfl
    · split
      · rw [respsDataOk_append, respsDataOk_append, hacc, dataOk_dataResps]
        rfl
      · rw [respsDataOk_append, hacc, dataOk_dataResps]
        rfl

theorem stepEvent_dataOk (now : Nat) (dnsResps : List DnsResponse)
    (reqId reqToken : Nat) (ev : MioEvent) (o : EvOracle)
    (s : InternalReqState) (cache : Cache) :
    respsDataOk (stepEvent now dnsResps reqId reqToken ev o s cache).resps = true := by
  cases s with
  | resolving dnsId host =>
    simp only [stepEvent]
    cases dnsResps.find? (fun resp => resp.id = dnsId) with
    | none => rfl
    | some resp =>
      obtain ⟨i, oc⟩ := resp
      cases oc with
      | known v t => dsimp only; split <;> rfl
      | unknown => rfl
      | error => rfl
      | timedOut => rfl
  | sending =>
    simp only [stepEvent]
    split
    · cases o.peerAddr with
      | connected => cases o.write <;> rfl
      | notConnected => rfl
      | fatal => rfl
    · rfl
  | recvHead =>
    simp only [stepEvent]
    split
    · split
      · split
        · rfl
        · split
          · rfl
          · split <;> rfl
          · rename_i code reason headers heq
            cases hcl : contentLengthOf headers with
            | none => simp only [hcl]; rfl
            | some cl =>
              simp only [hcl]
              exact bodyPass_dataOk reqId o _ cache _ 0 cl (by simp [respsDataOk])
      · rfl
    · rfl
  | recvBody kind total cl =>
    simp only [stepEvent]
    split
    · exact bodyPass_dataOk reqId o [] cache kind total cl rfl
    · rfl
  | unspecified => rfl
  | error => rfl
  | done => rfl

theorem goEvents_dataOk (now : Nat) (dnsResps : List DnsResponse)
    (reqId reqToken : Nat) :
    ∀ (events : List MioEvent) (os : List EvOracle) (s : InternalReqState)
      (cache : Cache),
      respsDataOk (goEvents now dnsResps reqId reqToken events os s cache).resps = true := by
  intro events
  induction events with
  | nil => intro os s cache; rfl
  | cons ev evs ih =>
    intro os s cache
    have hstep := stepEvent_dataOk now dnsResps reqId reqToken ev (os.headD .benign) s cache
    cases hctl : (stepEvent now dnsResps reqId reqToken ev (os.headD .benign) s cache).ctl with
    | skipRest => simp only [goEvents, hctl]; exact hstep
    | fatal f => simp only [goEvents, hctl]; exact hstep
    | next =>
      simp only [goEvents, hctl]
      rw [respsDataOk_append, hstep, ih os.tail _ _]
      rfl

theorem procRecord_dataOk (now : Nat) (dnsResps : List DnsResponse)
    (events : List MioEvent) (cache : Cache) (r : InternalReq) (o : ReqOracle) :
    respsDataOk (procRecord now dnsResps events cache r o).resps = true := by
  unfold procRecord
  split
  · split <;> rfl
  · split
    · rfl
    · exact goEvents_dataOk now dnsResps r.id r.token events o.perEvent r.state cache

theorem goReqs_dataOk (now : Nat) (dnsResps : List DnsResponse)
    (events : List MioEvent) :
    ∀ (reqs : List InternalReq) (os : List ReqOracle) (cache : Cache),
      respsDataOk (((goReqs now dnsResps events reqs os cache).pairs.map (·.2)).flatten)
        = true := by
  intro reqs
  induction reqs with
  | nil => intro os cache; rfl
  | cons r rs ih =>
    intro os cache
    have hrec := procRecord_dataOk now dnsResps events cache r (os.headD .benign)
    have hz : ∀ (l : List InternalReq),
        ((l.map (fun x => (x, ([] : List Response)))).map (·.2)).flatten = [] := by
      intro l
      induction l with
      | nil => rfl
      | cons a as iha => simpa using iha
    cases hfl : (procRecord now dnsResps events cache r (os.headD .benign)).fail with
    | some f =>
      simp only [goReqs, hfl, List.map_cons, List.flatten_cons]
      rw [respsDataOk_append, hrec, hz]
      rfl
    | none =>
      simp only [goReqs, hfl, List.map_cons, List.flatten_cons]
      rw [respsDataOk_append, hrec, ih os.tail _]
      rfl

/-- C10: every `Data` event emitted by `pump` carries at least one byte (the
`bytes_read > 0` guard), over every state, event batch and environment
behaviour — even counting events a failing call would drop. -/
theorem c10_data_nonempty (st : Client) (now : Nat) (events : List MioEvent)
    (o : PumpOracle) :
    respsDataOk (Client.pump st now events o).resps = true := by
  cases heq : (DnsClient.pump st.dns now events o.dnsEv).fail with
  | some f => simp only [Client.pump, heq]; rfl
  | none =>
    simp only [Client.pump, heq]
    cases hft : (goReqs now (DnsClient.pump st.dns now events o.dnsEv).resps events
        st.requests o.reqs st.dnsCache).fail with
    | some f =>
      simp only [clientPumpCore, hft]
      exact goReqs_dataOk now _ events st.requests o.reqs st.dnsCache
    | none =>
      simp only [clientPumpCore, hft]
      exact goReqs_dataOk now _ events st.requests o.reqs st.dnsCache

/-! ## C8 machinery: response identities and the timeout branch -/

theorem mem_dataResps_id {reqId : Nat} {bytes : List Nat} {x : Response}
    (hx : x ∈ (if bytes.isEmpty then []
      else [(⟨reqId, .data bytes⟩ : Response)])) :
    x.id = reqId := by
  by_cases h : bytes.isEmpty
  · rw [if_pos h] at hx; simp at hx
  · rw [if_neg h] at hx
    rw [List.mem_singleton] at hx
    rw [hx]

theorem bodyPass_ids (reqId : Nat) (o : EvOracle) (acc : List Response)
    (cache : Cache) (kind : RecvBodyKind) (total cl : Nat)
    (hacc : ∀ x ∈ acc, x.id = reqId) :
    ∀ x ∈ (bodyPass reqId o acc cache kind total cl).resps, x.id = reqId := by
  simp only [bodyPass]
  split
  · exact hacc
  · split
    · split
      all_goals
        intro x hx
        rcases List.mem_append.mp hx with hx1 | hx2
        · rcases List.mem_append.mp hx1 with hxa | hxd
          · exact hacc x hxa
          · exact mem_dataResps_id hxd
        · rw [List.mem_singleton] at hx2; rw [hx2]
    · split
      · intro x hx
        rcases List.mem_append.mp hx with hx1 | hx2
        · rcases List.mem_append.mp hx1 with hxa | hxd
          · exact hacc x hxa
          · exact mem_dataResps_id hxd
        · rw [List.mem_singleton] at hx2; rw [hx2]
      · intro x hx
        rcases List.mem_append.mp hx with hx1 | hxd
        · exact hacc x hx1
        · exact mem_dataResps_id hxd

theorem stepEvent_ids (now : Nat) (dnsResps : List DnsResponse)
    (reqId reqToken : Nat) (ev : MioEvent) (o : EvOracle)
    (s : InternalReqState) (cache : Cache) :
    ∀ x ∈ (stepEvent now dnsResps reqId reqToken ev o s cache).resps,
      x.id = reqId := by
  cases s with
  | resolving dnsId host =>
    simp only [stepEvent]
    cases dnsResps.find? (fun resp => resp.id = dnsId) with
    | none => intro x hx; simp at hx
    | some resp =>
      obtain ⟨i, oc⟩ := resp
      cases oc with
      | known v t =>
        dsimp only
        split
        all_goals intro x hx; simp at hx
      | unknown => intro x hx; rw [List.mem_singleton] at hx; rw [hx]
      | error => intro x hx; rw [List.mem_singleton] at hx; rw [hx]
      | timedOut => intro x hx; rw [List.mem_singleton] at hx; rw [hx]
  | sending =>
    simp only [stepEvent]
    split
    · cases o.peerAddr with
      | connected =>
        cases o.write
        all_goals intro x hx; simp at hx
      | notConnected => intro x hx; simp at hx
      | fatal => intro x hx; simp at hx
    · intro x hx; simp at hx
  | recvHead =>
    simp only [stepEvent]
    split
    · split
      · split
        · intro x hx; simp at hx
        · split
          · intro x hx; rw [List.mem_singleton] at hx; rw [hx]
          · split
            all_goals intro x hx
            · rw [List.mem_singleton] at hx; rw [hx]
            · simp at hx
          · rename_i code reason headers heq
            cases hcl : contentLengthOf headers with
            | none => simp only [hcl]; intro x hx; simp at hx
            | some cl =>
              simp only [hcl]
              exact bodyPass_ids reqId o _ cache _ 0 cl
                (by intro x hx; rw [List.mem_singleton] at hx; rw [hx])
      · intro x hx; simp at hx
    · intro x hx; simp at hx
  | recvBody kind total cl =>
    simp only [stepEvent]
    split
    · exact bodyPass_ids reqId o [] cache kind total cl (by intro x hx; simp at hx)
    · intro x hx; simp at hx
  | unspecified => intro x hx; simp [stepEvent] at hx
  | error => intro x hx; simp [stepEvent] at hx
  | done => intro x hx; simp [stepEvent] at hx

theorem goEvents_ids (now : Nat) (dnsResps : List DnsResponse)
    (reqId reqToken : Nat) :
    ∀ (events : List MioEvent) (os : List EvOracle) (s : InternalReqState)
      (cache : Cache),
      ∀ x ∈ (goEvents now dnsResps reqId reqToken events os s cache).resps,
        x.id = reqId := by
  intro events
  induction events with
  | nil => intro os s cache x hx; simp [goEvents] at hx
  | cons ev evs ih =>
    intro os s cache
    have hstep := stepEvent_ids now dnsResps reqId reqToken ev (os.headD .benign) s cache
    cases hctl : (stepEvent now dnsResps reqId reqToken ev (os.headD .benign) s cache).ctl with
    | skipRest => simp only [goEvents, hctl]; exact hstep
    | fatal f => simp only [goEvents, hctl]; exact hstep
    | next =>
      simp only [goEvents, hctl]
      intro x hx
      rcases List.mem_append.mp hx with hx1 | hx2
      · exact hstep x hx1
      · exact ih os.tail _ _ x hx2

theorem procRecord_ids (now : Nat) (dnsResps : List DnsResponse)
    (events : List MioEvent) (cache : Cache) (r : InternalReq) (o : ReqOracle) :
    ∀ x ∈ (procRecord now dnsResps events cache r o).resps, x.id = r.id := by
  simp only [procRecord]
  split
  · split
    all_goals intro x hx; rw [List.mem_singleton] at hx; rw [hx]
  · split
    · intro x hx; simp at hx
    · exact goEvents_ids now dnsResps r.id r.token events o.perEvent r.state cache

theorem procRecord_req_id (now : Nat) (dnsResps : List DnsResponse)
    (events : List MioEvent) (cache : Cache) (r : InternalReq) (o : ReqOracle) :
    (procRecord now dnsResps events cache r o).req.id = r.id
    ∧ (procRecord now dnsResps events cache r o).req.token = r.token := by
  simp only [procRecord]
  split
  · split
    all_goals exact ⟨rfl, rfl⟩
  · split
    · exact ⟨rfl, rfl⟩
    · exact ⟨rfl, rfl⟩

theorem procRecord_elapsed (now : Nat) (dnsResps : List DnsResponse)
    (events : List MioEvent) (cache : Cache) (r : InternalReq) (o : ReqOracle)
    (helapsed : deadlineElapsed r.timeout r.timeCreated now = true)
    (hfail : (procRecord now dnsResps events cache r o).fail = none) :
    (procRecord now dnsResps events cache r o).resps = [⟨r.id, .timedOut⟩]
    ∧ (procRecord now dnsResps events cache r o).req = { r with state := .error } := by
  have h2 : ¬(r.state.hasConnection = true ∧ o.timeoutDeregisterOk = false) := by
    intro hcon
    have hsome : (procRecord now dnsResps events cache r o).fail = some .ioError := by
      simp [procRecord, helapsed, hcon.1, hcon.2]
    rw [hsome] at hfail
    exact Option.noConfusion hfail
  constructor
  · simp [procRecord, helapsed, h2]
  · simp [procRecord, helapsed, h2]

theorem goReqs_pair_ids (now : Nat) (dnsResps : List DnsResponse)
    (events : List MioEvent) :
    ∀ (reqs : List InternalReq) (os : List ReqOracle) (cache : Cache),
      ((goReqs now dnsResps events reqs os cache).pairs.map (·.1.id))
        = reqs.map (·.id) := by
  intro reqs
  induction reqs with
  | nil => intro os cache; rfl
  | cons r rs ih =>
    intro os cache
    have hid := (procRecord_req_id now dnsResps events cache r (os.headD .benign)).1
    cases hfl : (procRecord now dnsResps events cache r (os.headD .benign)).fail with
    | some f =>
      simp only [goReqs, hfl, List.map_cons, List.map_map]
      rw [hid]
      simp [Function.comp]
    | none =>
      simp only [goReqs, hfl, List.map_cons]
      rw [hid, ih os.tail _]

theorem goReqs_resp_ids (now : Nat) (dnsResps : List DnsResponse)
    (events : List MioEvent) :
    ∀ (reqs : List InternalReq) (os : List ReqOracle) (cache : Cache),
      ∀ x ∈ (((goReqs now dnsResps events reqs os cache).pairs.map (·.2)).flatten),
        ∃ q ∈ reqs, x.id = q.id := by
  intro reqs
  induction reqs with
  | nil => intro os cache x hx; simp [goReqs] at hx
  | cons r rs ih =>
    intro os cache
    have hz : ∀ (l : List InternalReq),
        ((l.map (fun x => (x, ([] : List Response)))).map (·.2)).flatten = [] := by
      intro l
      induction l with
      | nil => rfl
      | cons a as iha => simpa using iha
    have hrec := procRecord_ids now dnsResps events cache r (os.headD .benign)
    cases hfl : (procRecord now dnsResps events cache r (os.headD .benign)).fail with
    | some f =>
      simp only [goReqs, hfl, List.map_cons, List.flatten_cons]
      intro x hx
      rcases List.mem_append.mp hx with hx1 | hx2
      · exact ⟨r, List.mem_cons_self r rs, hrec x hx1⟩
      · rw [hz rs] at hx2; simp at hx2
    | none =>
      simp only [goReqs, hfl, List.map_cons, List.flatten_cons]
      intro x hx
      rcases List.mem_append.mp hx with hx1 | hx2
      · exact ⟨r, List.mem_cons_self r rs, hrec x hx1⟩
      · obtain ⟨q, hq, hqid⟩ := ih os.tail _ x hx2
        exact ⟨q, List.mem_cons_of_mem r hq, hqid⟩

theorem goReqs_timedOut (now : Nat) (dnsResps : List DnsResponse)
    (events : List MioEvent) :
    ∀ (reqs : List InternalReq) (os : List ReqOracle) (cache : Cache)
      (r : InternalReq),
      r ∈ reqs →
      (reqs.map (·.id)).Nodup →
      deadlineElapsed r.timeout r.timeCreated now = true →
      (goReqs now dnsResps events reqs os cache).fail = none →
      eventsFor r.id (((goReqs now dnsResps events reqs os cache).pairs.map (·.2)).flatten)
          = [.timedOut]
      ∧ ∀ p ∈ (goReqs now dnsResps events reqs os cache).pairs,
          p.1.id = r.id → p.1.isFinished = true := by
  intro reqs
  induction reqs with
  | nil => intro os cache r hr; exact absurd hr (List.not_mem_nil r)
  | cons q rs ih =>
    intro os cache r hr hnd helapsed hfail
    have hndq : q.id ∉ rs.map (·.id) := by
      have := hnd
      rw [List.map_cons, List.nodup_cons] at this
      exact this.1
    have hndtail : (rs.map (·.id)).Nodup := by
      have := hnd
      rw [List.map_cons, List.nodup_cons] at this
      exact this.2
    cases hfl : (procRecord now dnsResps events cache q (os.headD .benign)).fail with
    | some f =>
      rw [show (goReqs now dnsResps events (q :: rs) os cache).fail
          = some f by simp only [goReqs, hfl]] at hfail
      exact Option.noConfusion hfail
    | none =>
      simp only [goReqs, hfl, List.map_cons, List.flatten_cons] at hfail ⊢
      rcases List.mem_cons.mp hr with rfl | hrs
      · obtain ⟨hresps, hreq⟩ := procRecord_elapsed now dnsResps events cache r
          (os.headD .benign) helapsed hfl
        rw [hresps]
        have hrest : ∀ x ∈ (((goReqs now dnsResps events rs os.tail
            (procRecord now dnsResps events cache r (os.headD .benign)).cache).pairs.map
              (·.2)).flatten), x.id ≠ r.id := by
          intro x hx hxid
          obtain ⟨q', hq', hqid'⟩ := goReqs_resp_ids now dnsResps events rs os.tail _ x hx
          apply hndq
          rw [← hxid, hqid']
          exact List.mem_map_of_mem (·.id) hq'
        constructor
        · rw [eventsFor_append, eventsFor_all_ne hrest, List.append_nil]
          rw [eventsFor_cons]
          simp [eventsFor]
        · intro p hp hpid
          rcases List.mem_cons.mp hp with rfl | hps
          · rw [hreq]
            rfl
          · exfalso
            apply hndq
            have hpin : p.1.id ∈ ((goReqs now dnsResps events rs os.tail
                (procRecord now dnsResps events cache r (os.headD .benign)).cache).pairs.map
                  (·.1.id)) := List.mem_map_of_mem (·.1.id) hps
            rw [goReqs_pair_ids now dnsResps events rs os.tail _] at hpin
            rw [← hpid]
            exact hpin
      · have hqid : ∀ x ∈ (procRecord now dnsResps events cache q (os.headD .benign)).resps,
            x.id ≠ r.id := by
          intro x hx hxid
          apply hndq
          have := procRecord_ids now dnsResps events cache q (os.headD .benign) x hx
          rw [this] at hxid
          rw [hxid]
          exact List.mem_map_of_mem (·.id) hrs
        obtain ⟨ih1, ih2⟩ := ih os.tail _ r hrs hndtail helapsed hfail
        constructor
        · rw [eventsFor_append, eventsFor_all_ne hqid, List.nil_append]
          exact ih1
        · intro p hp hpid
          rcases List.mem_cons.mp hp with rfl | hps
          · exfalso
            apply hndq
            rw [(procRecord_req_id now dnsResps events cache q (os.headD .benign)).1] at hpid
            rw [hpid]
            exact List.mem_map_of_mem (·.id) hrs
          · exact ih2 p hps hpid

/-- C8: a record whose deadline has elapsed at the time of a pump call emits
exactly one `TimedOut` for its ticket in that call and nothing else, and its
record is removed — independently of whatever readiness events are passed in
(the deadline check precedes event examination). -/
theorem c8_timeout_before_events (st : Client) (now : Nat) (events : List MioEvent)
    (o : PumpOracle) (r : InternalReq)
    (hr : r ∈ st.requests)
    (hnd : (st.requests.map (·.id)).Nodup)
    (helapsed : deadlineElapsed r.timeout r.timeCreated now = true)
    (hok : (Client.pump st now events o).fail = none) :
    eventsFor r.id (Client.pump st now events o).resps = [.timedOut]
    ∧ ∀ q ∈ (Client.pump st now events o).st.requests, q.id ≠ r.id := by
  cases hdf : (DnsClient.pump st.dns now events o.dnsEv).fail with
  | some f =>
    rw [show (Client.pump st now events o).fail = some f by
      simp only [Client.pump, hdf]] at hok
    exact Option.noConfusion hok
  | none =>
    simp only [Client.pump, hdf] at hok ⊢
    cases hfl : (goReqs now (DnsClient.pump st.dns now events o.dnsEv).resps events
        st.requests o.reqs st.dnsCache).fail with
    | some f =>
      rw [show (clientPumpCore { st with dns := (DnsClient.pump st.dns now events o.dnsEv).st }
          now events (DnsClient.pump st.dns now events o.dnsEv).resps o.reqs).fail = some f by
        simp only [clientPumpCore, hfl]] at hok
      exact Option.noConfusion hok
    | none =>
      obtain ⟨h1, h2⟩ := goReqs_timedOut now (DnsClient.pump st.dns now events o.dnsEv).resps
        events st.requests o.reqs st.dnsCache r hr hnd helapsed hfl
      constructor
      · simp only [clientPumpCore, hfl]
        exact h1
      · simp only [clientPumpCore, hfl]
        intro qq hq hqid
        rw [List.mem_filter] at hq
        obtain ⟨p, hp, hpq⟩ := List.mem_map.mp hq.1
        have hfin := h2 p hp (by rw [hpq]; exact hqid)
        rw [hpq] at hfin
        have hq2 : qq.isFinished = false := by
          have hb := hq.2
          simp at hb
          exact hb
        rw [hfin] at hq2
        exact Bool.noConfusion hq2

/-- C8 witness: a concrete elapsed record (timeout 5, created 0, pumped at
9) with an unrelated readable event present. -/
theorem c8_timeout_before_events_witness :
    (⟨0, 10, 0, some 5, .recvHead⟩ : InternalReq) ∈ stC8.requests
    ∧ deadlineElapsed (some 5) 0 9 = true
    ∧ (Client.pump stC8 9 [⟨10, true, false⟩] ⟨[], [.benign]⟩).fail = none
    ∧ eventsFor 0 (Client.pump stC8 9 [⟨10, true, false⟩] ⟨[], [.benign]⟩).resps
        = [.timedOut]
    ∧ ∀ q ∈ (Client.pump stC8 9 [⟨10, true, false⟩] ⟨[], [.benign]⟩).st.requests,
        q.id ≠ 0 := by
  refine ⟨by decide, by decide, by decide, ?_, ?_⟩
  · exact (c8_timeout_before_events stC8 9 [⟨10, true, false⟩] ⟨[], [.benign]⟩
      ⟨0, 10, 0, some 5, .recvHead⟩ (by decide) (by decide) (by decide) (by decide)).1
  · exact (c8_timeout_before_events stC8 9 [⟨10, true, false⟩] ⟨[], [.benign]⟩
      ⟨0, 10, 0, some 5, .recvHead⟩ (by decide) (by decide) (by decide) (by decide)).2

/-! ## C2 machinery: the per-ticket event grammar -/

theorem isLive_not_unspec {s : InternalReqState} (h : s.isLive = true) :
    s ≠ .unspecified := by
  cases s <;> simp_all [InternalReqState.isLive]

theorem arun_dataResps (reqId : Nat) (bytes : List Nat) :
    arun .s1 ((if bytes.isEmpty then []
      else [(⟨reqId, .data bytes⟩ : Response)]).map (·.state)) = some .s1 := by
  by_cases h : bytes.isEmpty
  · rw [if_pos h]; rfl
  · rw [if_neg h]; rfl

theorem bodyPass_gram (reqId : Nat) (o : EvOracle) (acc : List Response)
    (cache : Cache) (kind : RecvBodyKind) (total cl : Nat) (a : AState)
    (hacc : arun a (acc.map (·.state)) = some .s1) :
    (bodyPass reqId o acc cache kind total cl).ctl.isFatal = false →
    ((bodyPass reqId o acc cache kind total cl).ctl = .next →
        (bodyPass reqId o acc cache kind total cl).state.isLive = true)
    ∧ (bodyPass reqId o acc cache kind total cl).state ≠ .unspecified
    ∧ arun a ((bodyPass reqId o acc cache kind total cl).resps.map (·.state))
        = some (bodyPass reqId o acc cache kind total cl).state.alpha := by
  simp only [bodyPass]
  split
  · intro h; exact absurd h (by simp [Ctl.isFatal])
  · split
    · split
      · intro _
        refine ⟨fun h => Ctl.noConfusion h, fun h => InternalReqState.noConfusion h, ?_⟩
        rw [List.map_append, List.map_append, arun_append, arun_append, hacc]
        by_cases hbe : o.bodyRead.bytes.isEmpty
        · simp [hbe, arun, astep, InternalReqState.alpha]
        · simp [hbe, arun, astep, InternalReqState.alpha]
      · intro h; exact absurd h (by simp [Ctl.isFatal])
    · split
      · intro _
        refine ⟨fun h => Ctl.noConfusion h, fun h => InternalReqState.noConfusion h, ?_⟩
        rw [List.map_append, List.map_append, arun_append, arun_append, hacc]
        by_cases hbe : o.bodyRead.bytes.isEmpty
        · simp [hbe, arun, astep, InternalReqState.alpha]
        · simp [hbe, arun, astep, InternalReqState.alpha]
      · intro _
        refine ⟨fun _ => rfl, fun h => InternalReqState.noConfusion h, ?_⟩
        rw [List.map_append, arun_append, hacc]
        by_cases hbe : o.bodyRead.bytes.isEmpty
        · simp [hbe, arun, astep, InternalReqState.alpha]
        · simp [hbe, arun, astep, InternalReqState.alpha]

theorem stepEvent_gram (now : Nat) (dnsResps : List DnsResponse)
    (reqId reqToken : Nat) (ev : MioEvent) (o : EvOracle)
    (s : InternalReqState) (cache : Cache)
    (hlive : s.isLive = true) :
    (stepEvent now dnsResps reqId reqToken ev o s cache).ctl.isFatal = false →
    ((stepEvent now dnsResps reqId reqToken ev o s cache).ctl = .next →
        (stepEvent now dnsResps reqId reqToken ev o s cache).state.isLive = true)
    ∧ (stepEvent now dnsResps reqId reqToken ev o s cache).state ≠ .unspecified
    ∧ arun s.alpha ((stepEvent now dnsResps reqId reqToken ev o s cache).resps.map (·.state))
        = some (stepEvent now dnsResps reqId reqToken ev o s cache).state.alpha := by
  cases s with
  | resolving dnsId host =>
    simp only [stepEvent]
    cases dnsResps.find? (fun resp => resp.id = dnsId) with
    | none =>
      intro _
      exact ⟨fun _ => rfl, fun h => InternalReqState.noConfusion h, rfl⟩
    | some resp =>
      obtain ⟨i, oc⟩ := resp
      cases oc with
      | known v t =>
        dsimp only
        split
        · intro _
          exact ⟨fun h => Ctl.noConfusion h, fun h => InternalReqState.noConfusion h, rfl⟩
        · intro h; exact absurd h (by simp [Ctl.isFatal])
      | unknown =>
        intro _
        exact ⟨fun h => Ctl.noConfusion h, fun h => InternalReqState.noConfusion h, rfl⟩
      | error =>
        intro _
        exact ⟨fun h => Ctl.noConfusion h, fun h => InternalReqState.noConfusion h, rfl⟩
      | timedOut =>
        intro _
        exact ⟨fun h => Ctl.noConfusion h, fun h => InternalReqState.noConfusion h, rfl⟩
  | sending =>
    simp only [stepEvent]
    split
    · cases o.peerAddr with
      | connected =>
        cases o.write with
        | ok =>
          intro _
          exact ⟨fun _ => rfl, fun h => InternalReqState.noConfusion h, rfl⟩
        | wouldBlock =>
          intro _
          exact ⟨fun h => Ctl.noConfusion h, fun h => InternalReqState.noConfusion h, rfl⟩
        | fatal => intro h; exact absurd h (by simp [Ctl.isFatal])
      | notConnected =>
        intro _
        exact ⟨fun h => Ctl.noConfusion h, fun h => InternalReqState.noConfusion h, rfl⟩
      | fatal => intro h; exact absurd h (by simp [Ctl.isFatal])
    · intro _
      exact ⟨fun _ => rfl, fun h => InternalReqState.noConfusion h, rfl⟩
  | recvHead =>
    simp only [stepEvent]
    split
    · split
      · split
        · intro h; exact absurd h (by simp [Ctl.isFatal])
        · split
          · intro _
            exact ⟨fun h => Ctl.noConfusion h, fun h => InternalReqState.noConfusion h, rfl⟩
          · split
            · intro _
              exact ⟨fun h => Ctl.noConfusion h, fun h => InternalReqState.noConfusion h, rfl⟩
            · intro _
              exact ⟨fun _ => rfl, fun h => InternalReqState.noConfusion h, rfl⟩
          · rename_i code reason headers heq
            cases hcl : contentLengthOf headers with
            | none =>
              simp only [hcl]
              intro h
              exact absurd h (by simp [Ctl.isFatal])
            | some cl =>
              simp only [hcl]
              exact bodyPass_gram reqId o _ cache _ 0 cl _ rfl
      · intro _
        exact ⟨fun _ => rfl, fun h => InternalReqState.noConfusion h, rfl⟩
    · intro _
      exact ⟨fun _ => rfl, fun h => InternalReqState.noConfusion h, rfl⟩
  | recvBody kind total cl =>
    simp only [stepEvent]
    split
    · exact bodyPass_gram reqId o [] cache kind total cl _ rfl
    · intro _
      exact ⟨fun _ => rfl, fun h => InternalReqState.noConfusion h, rfl⟩
  | unspecified => simp [InternalReqState.isLive] at hlive
  | error => simp [InternalReqState.isLive] at hlive
  | done => simp [InternalReqState.isLive] at hlive

theorem goEvents_gram (now : Nat) (dnsResps : List DnsResponse)
    (reqId reqToken : Nat) :
    ∀ (events : List MioEvent) (os : List EvOracle) (s : InternalReqState)
      (cache : Cache),
      s.isLive = true →
      (goEvents now dnsResps reqId reqToken events os s cache).fail = none →
      (goEvents now dnsResps reqId reqToken events os s cache).state ≠ .unspecified
      ∧ arun s.alpha
          ((goEvents now dnsResps reqId reqToken events os s cache).resps.map (·.state))
        = some (goEvents now dnsResps reqId reqToken events os s cache).state.alpha := by
  intro events
  induction events with
  | nil =>
    intro os s cache hlive _
    exact ⟨isLive_not_unspec hlive, rfl⟩
  | cons ev evs ih =>
    intro os s cache hlive hfail
    cases hctl : (stepEvent now dnsResps reqId reqToken ev (os.headD .benign) s cache).ctl with
    | fatal f =>
      simp only [goEvents, hctl] at hfail
      exact absurd hfail (by simp)
    | skipRest =>
      simp only [goEvents, hctl]
      have h := stepEvent_gram now dnsResps reqId reqToken ev (os.headD .benign) s cache hlive
        (by rw [hctl]; rfl)
      exact ⟨h.2.1, h.2.2⟩
    | next =>
      simp only [goEvents, hctl] at hfail ⊢
      have h := stepEvent_gram now dnsResps reqId reqToken ev (os.headD .benign) s cache hlive
        (by rw [hctl]; rfl)
      have hlive' := h.1 hctl
      obtain ⟨ih1, ih2⟩ := ih os.tail _ _ hlive' hfail
      refine ⟨ih1, ?_⟩
      rw [List.map_append, arun_append, h.2.2]
      exact ih2

theorem procRecord_gram (now : Nat) (dnsResps : List DnsResponse)
    (events : List MioEvent) (cache : Cache) (r : InternalReq) (o : ReqOracle)
    (hlive : r.state.isLive = true)
    (hfail : (procRecord now dnsResps events cache r o).fail = none) :
    (procRecord now dnsResps events cache r o).req.state ≠ .unspecified
    ∧ arun r.state.alpha ((procRecord now dnsResps events cache r o).resps.map (·.state))
        = some (procRecord now dnsResps events cache r o).req.state.alpha := by
  by_cases hel : deadlineElapsed r.timeout r.timeCreated now = true
  · obtain ⟨hresps, hreq⟩ := procRecord_elapsed now dnsResps events cache r o hel hfail
    rw [hresps, hreq]
    refine ⟨fun h => InternalReqState.noConfusion h, ?_⟩
    rcases alpha_of_live hlive with h | h <;> rw [h] <;> rfl
  · by_cases hcio : r.state.hasConnection = true ∧ o.completeIoFatal = true
    · exfalso
      have hsome : (procRecord now dnsResps events cache r o).fail = some .ioError := by
        simp [procRecord, hel, hcio.1, hcio.2]
      rw [hsome] at hfail
      exact Option.noConfusion hfail
    · have hre : (procRecord now dnsResps events cache r o).resps
          = (goEvents now dnsResps r.id r.token events o.perEvent r.state cache).resps := by
        simp [procRecord, hel, hcio]
      have hrs : (procRecord now dnsResps events cache r o).req.state
          = (goEvents now dnsResps r.id r.token events o.perEvent r.state cache).state := by
        simp [procRecord, hel, hcio]
      have hrf : (procRecord now dnsResps events cache r o).fail
          = (goEvents now dnsResps r.id r.token events o.perEvent r.state cache).fail := by
        simp [procRecord, hel, hcio]
      rw [hrf] at hfail
      obtain ⟨h1, h2⟩ := goEvents_gram now dnsResps r.id r.token events o.perEvent r.state
        cache hlive hfail
      rw [hre, hrs]
      exact ⟨h1, h2⟩

theorem goReqs_not_unspec (now : Nat) (dnsResps : List DnsResponse)
    (events : List MioEvent) :
    ∀ (reqs : List InternalReq) (os : List ReqOracle) (cache : Cache),
      (∀ r ∈ reqs, r.state.isLive = true) →
      (goReqs now dnsResps events reqs os cache).fail = none →
      ∀ p ∈ (goReqs now dnsResps events reqs os cache).pairs,
        p.1.state ≠ .unspecified := by
  intro reqs
  induction reqs with
  | nil => intro os cache _ _ p hp; simp [goReqs] at hp
  | cons r rs ih =>
    intro os cache hlive hfail
    cases hfl : (procRecord now dnsResps events cache r (os.headD .benign)).fail with
    | some f =>
      rw [show (goReqs now dnsResps events (r :: rs) os cache).fail = some f by
        simp only [goReqs, hfl]] at hfail
      exact Option.noConfusion hfail
    | none =>
      simp only [goReqs, hfl] at hfail ⊢
      intro p hp
      rcases List.mem_cons.mp hp with rfl | hps
      · exact (procRecord_gram now dnsResps events cache r (os.headD .benign)
          (hlive r (List.mem_cons_self r rs)) hfl).1
      · exact ih os.tail _ (fun q hq => hlive q (List.mem_cons_of_mem r hq)) hfail p hps

theorem goReqs_gram (now : Nat) (dnsResps : List DnsResponse)
    (events : List MioEvent) :
    ∀ (reqs : List InternalReq) (os : List ReqOracle) (cache : Cache)
      (t : Nat) (a : AState),
      (∀ r ∈ reqs, r.state.isLive = true) →
      (reqs.map (·.id)).Nodup →
      (goReqs now dnsResps events reqs os cache).fail = none →
      (∀ r, findReq t reqs = some r → a = r.state.alpha) →
      ∃ a', arun a (eventsFor t
            (((goReqs now dnsResps events reqs os cache).pairs.map (·.2)).flatten))
            = some a'
        ∧ (∀ r', findReq t
              (((goReqs now dnsResps events reqs os cache).pairs.map (·.1)).filter
                (fun x => !x.isFinished)) = some r' →
            r'.state.isLive = true ∧ a' = r'.state.alpha)
        ∧ (findReq t
              (((goReqs now dnsResps events reqs os cache).pairs.map (·.1)).filter
                (fun x => !x.isFinished)) = none →
            findReq t reqs = none → a' = a) := by
  intro reqs
  induction reqs with
  | nil =>
    intro os cache t a _ _ _ _
    exact ⟨a, rfl, fun r' hr' => by simp [findReq, goReqs] at hr', fun _ _ => rfl⟩
  | cons q rs ih =>
    intro os cache t a hlive hnd hfail ha
    have hndq : q.id ∉ rs.map (·.id) := by
      rw [List.map_cons, List.nodup_cons] at hnd
      exact hnd.1
    have hndtl : (rs.map (·.id)).Nodup := by
      rw [List.map_cons, List.nodup_cons] at hnd
      exact hnd.2
    cases hfl : (procRecord now dnsResps events cache q (os.headD .benign)).fail with
    | some f =>
      rw [show (goReqs now dnsResps events (q :: rs) os cache).fail = some f by
        simp only [goReqs, hfl]] at hfail
      exact Option.noConfusion hfail
    | none =>
      simp only [goReqs, hfl, List.map_cons, List.flatten_cons, List.filter_cons]
        at hfail ⊢
      have hgram := procRecord_gram now dnsResps events cache q (os.headD .benign)
        (hlive q (List.mem_cons_self q rs)) hfl
      have hids := procRecord_ids now dnsResps events cache q (os.headD .benign)
      have hprid := (procRecord_req_id now dnsResps events cache q (os.headD .benign)).1
      have hih := ih os.tail (procRecord now dnsResps events cache q (os.headD .benign)).cache
        t a (fun r hr => hlive r (List.mem_cons_of_mem q hr)) hndtl
      have hrespids := goReqs_resp_ids now dnsResps events rs os.tail
        (procRecord now dnsResps events cache q (os.headD .benign)).cache
      have hpairids := goReqs_pair_ids now dnsResps events rs os.tail
        (procRecord now dnsResps events cache q (os.headD .benign)).cache
      generalize hPR : procRecord now dnsResps events cache q (os.headD .benign) = PR
        at hfail hgram hids hprid hih hrespids hpairids ⊢
      generalize hRT : goReqs now dnsResps events rs os.tail PR.cache = RT
        at hfail hih hrespids hpairids ⊢
      obtain ⟨hnu, harun⟩ := hgram
      by_cases hqt : q.id = t
      · have haq : a = q.state.alpha :=
          ha q (by
            simp only [findReq]
            exact List.find?_cons_of_pos rs (by simp only [decide_eq_true_eq]; exact hqt))
        have hefhead : eventsFor t PR.resps = PR.resps.map (·.state) := by
          subst hqt
          exact eventsFor_all_eq hids
        have hefrest : eventsFor t ((RT.pairs.map (·.2)).flatten) = [] := by
          apply eventsFor_all_ne
          intro x hx hxid
          obtain ⟨q', hq', hqid'⟩ := hrespids x hx
          apply hndq
          rw [hqt, ← hxid, hqid']
          exact List.mem_map_of_mem (·.id) hq'
        refine ⟨PR.req.state.alpha, ?_, ?_, ?_⟩
        · rw [eventsFor_append, hefhead, hefrest, List.append_nil, haq]
          exact harun
        · intro r' hr'
          cases hfin : PR.req.isFinished with
          | true =>
            exfalso
            rw [if_neg (by rw [hfin]; intro h; exact Bool.noConfusion h)] at hr'
            have hmem := List.mem_of_find?_eq_some hr'
            have hpr : r'.id = t := by
              have hps := List.find?_some hr'
              simpa using hps
            rw [List.mem_filter] at hmem
            obtain ⟨p, hp, hpq⟩ := List.mem_map.mp hmem.1
            apply hndq
            have hin : p.1.id ∈ (RT.pairs.map (·.1.id)) :=
              List.mem_map_of_mem (·.1.id) hp
            rw [hpairids] at hin
            rw [hqt, ← hpr, ← hpq]
            exact hin
          | false =>
            rw [if_pos (by rw [hfin]; rfl)] at hr'
            have hpid : PR.req.id = t := by rw [hprid, hqt]
            rw [show findReq t (PR.req :: (RT.pairs.map (·.1)).filter
                (fun x => !x.isFinished)) = some PR.req by
              simp only [findReq]
              exact List.find?_cons_of_pos _ (by
                simp only [decide_eq_true_eq]; exact hpid)] at hr'
            injection hr' with hr'
            subst hr'
            exact ⟨isLive_of_not_finished hnu hfin, rfl⟩
        · intro hnone hnone2
          exfalso
          rw [show findReq t (q :: rs) = some q by
            simp only [findReq]
            exact List.find?_cons_of_pos rs (by
              simp only [decide_eq_true_eq]; exact hqt)] at hnone2
          exact Option.noConfusion hnone2
      · have hefhead : eventsFor t PR.resps = [] := by
          apply eventsFor_all_ne
          intro x hx hxid
          apply hqt
          rw [← hxid, hids x hx]
        have hfind : findReq t (q :: rs) = findReq t rs := by
          simp only [findReq]
          exact List.find?_cons_of_neg rs (by
            simp only [decide_eq_true_eq]; exact hqt)
        obtain ⟨a', h1, h2, h3⟩ := hih hfail (fun r hr => ha r (by rw [hfind]; exact hr))
        have hpne : PR.req.id ≠ t := by rw [hprid]; exact hqt
        have hskip : findReq t (PR.req :: (RT.pairs.map (·.1)).filter
            (fun x => !x.isFinished)) = findReq t ((RT.pairs.map (·.1)).filter
            (fun x => !x.isFinished)) := by
          simp only [findReq]
          exact List.find?_cons_of_neg _ (by
            simp only [decide_eq_true_eq]; exact hpne)
        refine ⟨a', ?_, ?_, ?_⟩
        · rw [eventsFor_append, hefhead, List.nil_append]
          exact h1
        · intro r' hr'
          cases hfin : PR.req.isFinished with
          | true =>
            rw [if_neg (by rw [hfin]; intro h; exact Bool.noConfusion h)] at hr'
            exact h2 r' hr'
          | false =>
            rw [if_pos (by rw [hfin]; rfl)] at hr'
            rw [hskip] at hr'
            exact h2 r' hr'
        · intro hnone hnone2
          rw [hfind] at hnone2
          refine h3 ?_ hnone2
          cases hfin : PR.req.isFinished with
          | true =>
            rw [if_neg (by rw [hfin]; intro h; exact Bool.noConfusion h)] at hnone
            exact hnone
          | false =>
            rw [if_pos (by rw [hfin]; rfl)] at hnone
            rw [hskip] at hnone
            exact hnone

/-! ## Trace-level grammar: invariant preservation and the C2 theorem -/

theorem find?_append_some {α : Type} (p : α → Bool) (l1 l2 : List α) (x : α)
    (h : l1.find? p = some x) : (l1 ++ l2).find? p = some x := by
  induction l1 with
  | nil => rw [List.find?_nil] at h; exact Option.noConfusion h
  | cons a as ih =>
    cases hp : p a with
    | false =>
      rw [List.find?_cons_of_neg _ (by rw [hp]; exact Bool.false_ne_true)] at h
      rw [List.cons_append,
        List.find?_cons_of_neg _ (by rw [hp]; exact Bool.false_ne_true)]
      exact ih h
    | true =>
      rw [List.find?_cons_of_pos _ hp] at h
      rw [List.cons_append, List.find?_cons_of_pos _ hp]
      exact h

theorem find?_append_none {α : Type} (p : α → Bool) (l1 l2 : List α)
    (h : l1.find? p = none) : (l1 ++ l2).find? p = l2.find? p := by
  induction l1 with
  | nil => rw [List.nil_append]
  | cons a as ih =>
    cases hp : p a with
    | false =>
      rw [List.find?_cons_of_neg _ (by rw [hp]; exact Bool.false_ne_true)] at h
      rw [List.cons_append,
        List.find?_cons_of_neg _ (by rw [hp]; exact Bool.false_ne_true)]
      exact ih h
    | true =>
      rw [List.find?_cons_of_pos _ hp] at h
      exact Option.noConfusion h

/-- A `send` that only consumed the ticket (no record stored) moves the
invariant from `k` to `k + 1`. -/
theorem Inv.bump {st : Client} {k : Nat} (hinv : Inv st k) (hk : k < usizeMod)
    (st' : Client) (hnid : st'.nextId = (st.nextId + 1) % 18446744073709551616)
    (hreq : st'.requests = st.requests) :
    Inv st' (k + 1) ∧ ∀ t a, startOk st k t a → startOk st' (k + 1) t a := by
  constructor
  · constructor
    · rw [hnid, hinv.nid]
      simp only [usizeMod]
      omega
    · rw [hreq]; exact hinv.live
    · rw [hreq]; exact hinv.nodup
    · rw [hreq]; intro r hr; exact Nat.lt_succ_of_lt (hinv.bound r hr)
  · intro t a hst
    cases hf : findReq t st.requests with
    | some r =>
      simp only [startOk, hf] at hst
      have hf' : findReq t st'.requests = some r := by rw [hreq]; exact hf
      simp only [startOk, hf']
      exact hst
    | none =>
      simp only [startOk, hf] at hst
      have hf' : findReq t st'.requests = none := by rw [hreq]; exact hf
      simp only [startOk, hf']
      rcases hst with h | h
      · exact Or.inl (Nat.lt_succ_of_lt h)
      · exact Or.inr h

/-- A `send` that stored a fresh live record with ticket `nextId` and a
pristine grammar state moves the invariant from `k` to `k + 1`. -/
theorem Inv.extend {st : Client} {k : Nat} (hinv : Inv st k) (hk : k < usizeMod)
    (st' : Client) (nr : InternalReq)
    (hnid : st'.nextId = (st.nextId + 1) % 18446744073709551616)
    (hreq : st'.requests = st.requests ++ [nr])
    (hid : nr.id = st.nextId)
    (hlv : nr.state.isLive = true)
    (halpha : nr.state.alpha = .s0) :
    Inv st' (k + 1) ∧ ∀ t a, startOk st k t a → startOk st' (k + 1) t a := by
  have hkk : st.nextId = k := by rw [hinv.nid]; exact Nat.mod_eq_of_lt hk
  constructor
  · constructor
    · rw [hnid, hinv.nid]
      simp only [usizeMod]
      omega
    · rw [hreq]
      intro r hr
      rcases List.mem_append.mp hr with h | h
      · exact hinv.live r h
      · rw [List.mem_singleton] at h
        rw [h]
        exact hlv
    · rw [hreq, List.map_append, List.nodup_append]
      refine ⟨hinv.nodup, List.nodup_singleton _, ?_⟩
      intro x hx hx2
      rw [List.map_singleton, List.mem_singleton] at hx2
      obtain ⟨q, hq, hqid⟩ := List.mem_map.mp hx
      have hb := hinv.bound q hq
      rw [hqid, hx2, hid, hkk] at hb
      exact absurd hb (Nat.lt_irrefl k)
    · rw [hreq]
      intro r hr
      rcases List.mem_append.mp hr with h | h
      · exact Nat.lt_succ_of_lt (hinv.bound r h)
      · rw [List.mem_singleton] at h
        rw [h, hid, hkk]
        exact Nat.lt_succ_self k
  · intro t a hst
    cases hf : findReq t st.requests with
    | some r =>
      simp only [startOk, hf] at hst
      have hf0 : st.requests.find? (fun q => decide (q.id = t)) = some r := hf
      have hf' : findReq t st'.requests = some r := by
        rw [hreq]
        show (st.requests ++ [nr]).find? (fun q => decide (q.id = t)) = some r
        exact find?_append_some _ _ _ _ hf0
      simp only [startOk, hf']
      exact hst
    | none =>
      simp only [startOk, hf] at hst
      have hf0 : st.requests.find? (fun q => decide (q.id = t)) = none := hf
      by_cases hts : nr.id = t
      · have hf' : findReq t st'.requests = some nr := by
          rw [hreq]
          show (st.requests ++ [nr]).find? (fun q => decide (q.id = t)) = some nr
          rw [find?_append_none _ _ _ hf0]
          exact List.find?_cons_of_pos _ (by simp only [decide_eq_true_eq]; exact hts)
        simp only [startOk, hf']
        rcases hst with h | h
        · exfalso
          rw [← hts, hid, hkk] at h
          exact absurd h (Nat.lt_irrefl k)
        · rw [h, halpha]
      · have hf' : findReq t st'.requests = none := by
          rw [hreq]
          show (st.requests ++ [nr]).find? (fun q => decide (q.id = t)) = none
          rw [find?_append_none _ _ _ hf0]
          rw [List.find?_cons_of_neg _ (by simp only [decide_eq_true_eq]; exact hts)]
          rfl
        simp only [startOk, hf']
        rcases hst with h | h
        · exact Or.inl (Nat.lt_succ_of_lt h)
        · exact Or.inr h

/-- `Client::send` preserves the trace invariant, consuming zero or one
tickets, and is compatible with every ticket's grammar starting state. -/
theorem send_preserve (st : Client) (now token : Nat) (req : Request)
    (o : SendOracle) (k : Nat) (hinv : Inv st k) (hk : k < usizeMod) :
    ∃ k', k ≤ k' ∧ k' ≤ k + 1 ∧ Inv (Client.send st now token req o).st k'
      ∧ ∀ t a, startOk st k t a → startOk (Client.send st now token req o).st k' t a := by
  cases hfmt : req.format with
  | none =>
    have hst : (Client.send st now token req o).st = st := by
      simp [Client.send, hfmt]
    rw [hst]
    exact ⟨k, Nat.le_refl k, Nat.le_succ k, hinv, fun t a h => h⟩
  | some bytes =>
    by_cases hfr : cacheFresh st.dnsCache req.uri.host now = true
    · by_cases hco : o.connectOk = true
      · have hst : (Client.send st now token req o).st
            = { st with
                nextId := (st.nextId + 1) % 18446744073709551616,
                requests := st.requests
                  ++ [⟨st.nextId, token, now, req.timeout, .sending⟩] } := by
          simp [Client.send, hfmt, hfr, hco]
        rw [hst]
        obtain ⟨h1, h2⟩ := Inv.extend hinv hk
          { st with
              nextId := (st.nextId + 1) % 18446744073709551616,
              requests := st.requests
                ++ [⟨st.nextId, token, now, req.timeout, .sending⟩] }
          ⟨st.nextId, token, now, req.timeout, .sending⟩
          rfl rfl rfl rfl rfl
        exact ⟨k + 1, Nat.le_succ k, Nat.le_refl _, h1, h2⟩
      · have hst : (Client.send st now token req o).st
            = { st with nextId := (st.nextId + 1) % 18446744073709551616 } := by
          simp [Client.send, hfmt, hfr, hco]
        rw [hst]
        obtain ⟨h1, h2⟩ := Inv.bump hinv hk
          { st with nextId := (st.nextId + 1) % 18446744073709551616 } rfl rfl
        exact ⟨k + 1, Nat.le_succ k, Nat.le_refl _, h1, h2⟩
    · cases hrr : (st.dns.resolve now req.uri.host req.timeout o.dnsResolve).fail with
      | some f =>
        have hst : (Client.send st now token req o).st
            = { st with
                nextId := (st.nextId + 1) % 18446744073709551616,
                dns := (st.dns.resolve now req.uri.host req.timeout o.dnsResolve).st } := by
          simp [Client.send, hfmt, hfr, hrr]
        rw [hst]
        obtain ⟨h1, h2⟩ := Inv.bump hinv hk
          { st with
              nextId := (st.nextId + 1) % 18446744073709551616,
              dns := (st.dns.resolve now req.uri.host req.timeout o.dnsResolve).st }
          rfl rfl
        exact ⟨k + 1, Nat.le_succ k, Nat.le_refl _, h1, h2⟩
      | none =>
        cases hdid : (st.dns.resolve now req.uri.host req.timeout o.dnsResolve).dnsId with
        | some dnsId =>
          have hst : (Client.send st now token req o).st
              = { st with
                  nextId := (st.nextId + 1) % 18446744073709551616,
                  dns := (st.dns.resolve now req.uri.host req.timeout o.dnsResolve).st,
                  requests := st.requests
                    ++ [⟨st.nextId, token, now, req.timeout,
                          .resolving dnsId req.uri.host⟩] } := by
            simp [Client.send, hfmt, hfr, hrr, hdid]
          rw [hst]
          obtain ⟨h1, h2⟩ := Inv.extend hinv hk
            { st with
                nextId := (st.nextId + 1) % 18446744073709551616,
                dns := (st.dns.resolve now req.uri.host req.timeout o.dnsResolve).st,
                requests := st.requests
                  ++ [⟨st.nextId, token, now, req.timeout,
                        .resolving dnsId req.uri.host⟩] }
            ⟨st.nextId, token, now, req.timeout, .resolving dnsId req.uri.host⟩
            rfl rfl rfl rfl rfl
          exact ⟨k + 1, Nat.le_succ k, Nat.le_refl _, h1, h2⟩
        | none =>
          have hst : (Client.send st now token req o).st
              = { st with
                  nextId := (st.nextId + 1) % 18446744073709551616,
                  dns := (st.dns.resolve now req.uri.host req.timeout o.dnsResolve).st } := by
            simp [Client.send, hfmt, hfr, hrr, hdid]
          rw [hst]
          obtain ⟨h1, h2⟩ := Inv.bump hinv hk
            { st with
                nextId := (st.nextId + 1) % 18446744073709551616,
                dns := (st.dns.resolve now req.uri.host req.timeout o.dnsResolve).st }
            rfl rfl
          exact ⟨k + 1, Nat.le_succ k, Nat.le_refl _, h1, h2⟩

theorem pump_fail_split (st : Client) (now : Nat) (events : List MioEvent)
    (o : PumpOracle) (hfail : (Client.pump st now events o).fail = none) :
    (st.dns.pump now events o.dnsEv).fail = none
    ∧ (goReqs now (st.dns.pump now events o.dnsEv).resps events st.requests o.reqs
        st.dnsCache).fail = none := by
  cases hd : (st.dns.pump now events o.dnsEv).fail with
  | some f =>
    rw [show (Client.pump st now events o).fail = some f by
      simp [Client.pump, hd]] at hfail
    exact Option.noConfusion hfail
  | none =>
    refine ⟨rfl, ?_⟩
    cases hrf : (goReqs now (st.dns.pump now events o.dnsEv).resps events st.requests
        o.reqs st.dnsCache).fail with
    | some f =>
      rw [show (Client.pump st now events o).fail = some f by
        simp [Client.pump, hd, clientPumpCore, hrf]] at hfail
      exact Option.noConfusion hfail
    | none => rfl

theorem pump_eqs (st : Client) (now : Nat) (events : List MioEvent) (o : PumpOracle)
    (hd : (st.dns.pump now events o.dnsEv).fail = none)
    (hrf : (goReqs now (st.dns.pump now events o.dnsEv).resps events st.requests o.reqs
        st.dnsCache).fail = none) :
    (Client.pump st now events o).resps
        = (((goReqs now (st.dns.pump now events o.dnsEv).resps events st.requests o.reqs
            st.dnsCache).pairs.map (·.2)).flatten)
    ∧ (Client.pump st now events o).st.requests
        = ((goReqs now (st.dns.pump now events o.dnsEv).resps events st.requests o.reqs
            st.dnsCache).pairs.map (·.1)).filter (fun x => !x.isFinished)
    ∧ (Client.pump st now events o).st.nextId = st.nextId := by
  refine ⟨?_, ?_, ?_⟩ <;> simp [Client.pump, hd, clientPumpCore, hrf]

/-- The grammar step performed by one successful `Client::pump` call, for an
arbitrary ticket `t`: the batch advances the automaton from the state pinned
by the ticket's record (or any state if there is none), and the retained
record pins the new state. -/
theorem pump_gram (st : Client) (now : Nat) (events : List MioEvent)
    (o : PumpOracle) (t : Nat) (a : AState)
    (hlv : ∀ r ∈ st.requests, r.state.isLive = true)
    (hnd : (st.requests.map (·.id)).Nodup)
    (hfail : (Client.pump st now events o).fail = none)
    (ha : ∀ r, findReq t st.requests = some r → a = r.state.alpha) :
    ∃ a', arun a (eventsFor t (Client.pump st now events o).resps) = some a'
      ∧ (∀ r', findReq t (Client.pump st now events o).st.requests = some r' →
          r'.state.isLive = true ∧ a' = r'.state.alpha)
      ∧ (findReq t (Client.pump st now events o).st.requests = none →
          findReq t st.requests = none → a' = a) := by
  obtain ⟨hd, hrf⟩ := pump_fail_split st now events o hfail
  obtain ⟨hre, hrq, -⟩ := pump_eqs st now events o hd hrf
  rw [hre, hrq]
  exact goReqs_gram now (st.dns.pump now events o.dnsEv).resps events st.requests
    o.reqs st.dnsCache t a hlv hnd hrf ha

/-- A successful `Client::pump` call preserves the trace invariant at the
same ticket count. -/
theorem pump_preserve (st : Client) (now : Nat) (events : List MioEvent)
    (o : PumpOracle) (k : Nat) (hinv : Inv st k)
    (hfail : (Client.pump st now events o).fail = none) :
    Inv (Client.pump st now events o).st k := by
  obtain ⟨hd, hrf⟩ := pump_fail_split st now events o hfail
  obtain ⟨-, hrq, hnid⟩ := pump_eqs st now events o hd hrf
  constructor
  · rw [hnid]; exact hinv.nid
  · rw [hrq]
    intro r hr
    rw [List.mem_filter] at hr
    obtain ⟨hr1, hr2⟩ := hr
    obtain ⟨p, hp, hpr⟩ := List.mem_map.mp hr1
    have hnu := goReqs_not_unspec now (st.dns.pump now events o.dnsEv).resps events
      st.requests o.reqs st.dnsCache hinv.live hrf p hp
    rw [hpr] at hnu
    apply isLive_of_not_finished hnu
    simp only [Bool.not_eq_eq_eq_not, Bool.not_true] at hr2
    exact hr2
  · rw [hrq]
    have h1 := hinv.nodup
    rw [← goReqs_pair_ids now (st.dns.pump now events o.dnsEv).resps events st.requests
      o.reqs st.dnsCache] at h1
    have h2 : List.Sublist
        (((goReqs now (st.dns.pump now events o.dnsEv).resps events st.requests
          o.reqs st.dnsCache).pairs.map (·.1)).filter (fun x => !x.isFinished))
        ((goReqs now (st.dns.pump now events o.dnsEv).resps events st.requests
          o.reqs st.dnsCache).pairs.map (·.1)) := List.filter_sublist _
    have h3 := h2.map (fun x : InternalReq => x.id)
    rw [List.map_map] at h3
    exact List.Nodup.sublist h3 h1
  · rw [hrq]
    intro r hr
    rw [List.mem_filter] at hr
    obtain ⟨p, hp, hpr⟩ := List.mem_map.mp hr.1
    have hin : r.id ∈ (goReqs now (st.dns.pump now events o.dnsEv).resps events
        st.requests o.reqs st.dnsCache).pairs.map (·.1.id) := by
      rw [← hpr]
      exact List.mem_map_of_mem (fun x => x.1.id) hp
    rw [goReqs_pair_ids now (st.dns.pump now events o.dnsEv).resps events st.requests
      o.reqs st.dnsCache] at hin
    obtain ⟨q, hq, hqid⟩ := List.mem_map.mp hin
    rw [← hqid]
    exact hinv.bound q hq

/-- The per-ticket grammar automaton never jams along a trace whose pump
calls all succeed, as long as the ticket counter cannot wrap. -/
theorem runTrace_gram :
    ∀ (ops : List Op) (st : Client) (k t : Nat) (a : AState),
      Inv st k → startOk st k t a → k + submitCount ops ≤ usizeMod →
      (runTrace ops st).pumpsOk = true →
      (arun a (eventsFor t (runTrace ops st).delivered)).isSome = true := by
  intro ops
  induction ops with
  | nil =>
    intro st k t a _ _ _ _
    simp [runTrace, eventsFor, arun]
  | cons op ops ih =>
    intro st k t a hinv hstart hcount hok
    cases op with
    | submit now token req o =>
      have hc : submitCount (Op.submit now token req o :: ops) = submitCount ops + 1 := rfl
      have hk : k < usizeMod := by omega
      obtain ⟨k', hk1, hk2, hinv', htrans⟩ := send_preserve st now token req o k hinv hk
      have hdel : (runTrace (Op.submit now token req o :: ops) st).delivered
          = (runTrace ops (Client.send st now token req o).st).delivered := rfl
      have hpo : (runTrace (Op.submit now token req o :: ops) st).pumpsOk
          = (runTrace ops (Client.send st now token req o).st).pumpsOk := rfl
      rw [hdel]
      rw [hpo] at hok
      exact ih (Client.send st now token req o).st k' t a hinv' (htrans t a hstart)
        (by omega) hok
    | pump now events o =>
      have hc : submitCount (Op.pump now events o :: ops) = submitCount ops := rfl
      cases hpf : (Client.pump st now events o).fail with
      | some f =>
        exfalso
        have hfo : (runTrace (Op.pump now events o :: ops) st).pumpsOk = false := by
          simp [runTrace, hpf]
        rw [hfo] at hok
        exact Bool.noConfusion hok
      | none =>
        have hdel : (runTrace (Op.pump now events o :: ops) st).delivered
            = (Client.pump st now events o).resps
              ++ (runTrace ops (Client.pump st now events o).st).delivered := by
          simp [runTrace, hpf]
        have hpo : (runTrace (Op.pump now events o :: ops) st).pumpsOk
            = (runTrace ops (Client.pump st now events o).st).pumpsOk := by
          simp [runTrace, hpf]
        rw [hdel, eventsFor_append, arun_append]
        rw [hpo] at hok
        have ha : ∀ r, findReq t st.requests = some r → a = r.state.alpha := by
          intro r hr
          simp only [startOk, hr] at hstart
          exact hstart
        obtain ⟨a', h1, h2, h3⟩ := pump_gram st now events o t a hinv.live hinv.nodup
          hpf ha
        rw [h1]
        have hstart' : startOk (Client.pump st now events o).st k t a' := by
          cases hf' : findReq t (Client.pump st now events o).st.requests with
          | some r' =>
            simp only [startOk, hf']
            exact (h2 r' hf').2
          | none =>
            simp only [startOk, hf']
            cases hf : findReq t st.requests with
            | some r =>
              refine Or.inl ?_
              have hf2 : st.requests.find? (fun q => decide (q.id = t)) = some r := hf
              have hmem := List.mem_of_find?_eq_some hf2
              have hrt : r.id = t := by simpa using List.find?_some hf2
              rw [← hrt]
              exact hinv.bound r hmem
            | none =>
              simp only [startOk, hf] at hstart
              rcases hstart with h | h
              · exact Or.inl h
              · exact Or.inr (by rw [h3 hf' hf, h])
        exact ih (Client.pump st now events o).st k t a'
          (pump_preserve st now events o k hinv hpf) hstart' (by omega) hok

/-- C2: along any run of `send`/`pump` calls in which every `pump` returns
`Ok` and at most `2^64` tickets are consumed, the responses delivered for any
single ticket respect the head/data/terminal grammar: a prefix of
`Head · Data* · Terminal`, with the bare-`Terminal` form for requests that
fail before their head. -/
theorem c2_amended (ops : List Op) (dnsToken t : Nat)
    (hsub : submitCount ops ≤ usizeMod)
    (hok : (runTrace ops (Client.init dnsToken)).pumpsOk = true) :
    gramOk (eventsFor t (runTrace ops (Client.init dnsToken)).delivered) = true := by
  have hinv : Inv (Client.init dnsToken) 0 := by
    constructor
    · rfl
    · intro r hr; exact absurd hr (List.not_mem_nil r)
    · exact List.nodup_nil
    · intro r hr; exact absurd hr (List.not_mem_nil r)
  have hstart : startOk (Client.init dnsToken) 0 t .s0 := by
    have hf : findReq t (Client.init dnsToken).requests = none := rfl
    simp only [startOk, hf]
    exact Or.inr trivial
  have h := runTrace_gram ops (Client.init dnsToken) 0 t .s0 hinv hstart
    (by simpa using hsub) hok
  exact h

/-- Witness for C2 at a concrete fully successful trace: one submit, three
pumps, delivering `Head`, `Data`, `Done` for ticket 0. -/
theorem c2_amended_witness :
    submitCount opsC2ok ≤ usizeMod
    ∧ (runTrace opsC2ok (Client.init 0)).pumpsOk = true
    ∧ gramOk (eventsFor 0 (runTrace opsC2ok (Client.init 0)).delivered) = true :=
  ⟨by decide, by decide, c2_amended opsC2ok 0 0 (by decide) (by decide)⟩

end Rtv
